import Mathlib

/-!
Verification of the redis-resharding-proxy core (`main.go`) against its
natural-language specification.

Part 1 embeds the RESP frame decoder `readRedisCommand` and the two
classifier loops (`slaveReader`, `masterConnection`) as pure functions over
byte lists.  A byte is a `Nat` (values are produced below 256 by the wire);
the buffered reader is the remaining input list.  Go's `nil` string slice is
`Option.none`; zero values of `redisCommand` fields are the Lean defaults.

Part 2 models the snapshot filter `FilterRDB`, which is called from
`masterConnection` but whose definition is not part of this repository
snapshot; it is modelled from the specification (§4.4).
-/

abbrev Byte := Nat

def strBytes (s : String) : List Byte := s.data.map Char.toNat

/-- The `redisCommand` struct of `main.go`.  `command = none` is Go's nil
slice; `reply = []` is Go's empty string; other defaults are Go zero values. -/
structure RedisCommand where
  raw : List Byte
  command : Option (List (List Byte)) := none
  reply : List Byte := []
  bulkSize : Int := 0
deriving Repr, DecidableEq

/-- Result of `readRedisCommand`: an I/O or parse error (`ioError`, the
`return nil, err` paths with a non-nil `err`), the `return nil, err` path at
the argument-group header check where `err` is nil (`nilOk`), a Go runtime
panic from `make` with a negative size (`panicked`), or success. -/
inductive ReadResult where
  | ioError
  | nilOk (rest : List Byte)
  | panicked
  | ok (cmd : RedisCommand) (rest : List Byte)
deriving Repr, DecidableEq

/-- Model of `bufio.Reader.ReadString('\n')`: the line including the delimiter, plus
the remaining input; `none` when the input ends before a newline (in Go the
partial data is returned together with a non-nil error, and every caller in
`main.go` then discards the data and fails). -/
def readLine : List Byte → Option (List Byte × List Byte)
  | [] => none
  | b :: rest =>
    if b = 10 then some ([10], rest)
    else
      match readLine rest with
      | some (line, r) => some (b :: line, r)
      | none => none

/-- ASCII white-space bytes trimmed by `strings.TrimSpace`. -/
def isSpaceByte (b : Byte) : Bool := b = 32 || b = 9 || b = 10 || b = 11 || b = 12 || b = 13

def trimSpace (s : List Byte) : List Byte :=
  ((s.dropWhile isSpaceByte).reverse.dropWhile isSpaceByte).reverse

/-- Value of a digit string read most-significant first. -/
def digitsNum (acc : Nat) : List Byte → Option Nat
  | [] => some acc
  | b :: r => if 48 ≤ b ∧ b ≤ 57 then digitsNum (acc * 10 + (b - 48)) r else none

/-- Model of `strconv.ParseInt(strings.TrimSpace(s), 10, 64)` (also `strconv.Atoi` on
a 64-bit platform): optional sign, then a non-empty run of decimal digits,
within the signed 64-bit range. -/
def parseIntTrim (s : List Byte) : Option Int :=
  match trimSpace s with
  | [] => none
  | 43 :: ds =>
    match ds, digitsNum 0 ds with
    | _ :: _, some n => if n ≤ 2 ^ 63 - 1 then some (n : Int) else none
    | _, _ => none
  | 45 :: ds =>
    match ds, digitsNum 0 ds with
    | _ :: _, some n => if n ≤ 2 ^ 63 then some (-(n : Int)) else none
    | _, _ => none
  | ds =>
    match digitsNum 0 ds with
    | some n => if n ≤ 2 ^ 63 - 1 then some (n : Int) else none
    | none => none

/-- Reading exactly `n` payload bytes (the `reader.Read` loop of the array
branch): fails when the input ends first. -/
def takeExact (n : Nat) (l : List Byte) : Option (List Byte × List Byte) :=
  if n ≤ l.length then some (l.take n, l.drop n) else none

/-- The `for i := range result.command` loop of `readRedisCommand`: reads
`n` argument groups, each a `$M` header line, `M` payload bytes and one
trailing line, accumulating decoded arguments and raw bytes. -/
def readArgs : Nat → List (List Byte) → List Byte → List Byte → ReadResult
  | 0, argAcc, rawAcc, input => .ok { raw := rawAcc, command := some argAcc } input
  | n + 1, argAcc, rawAcc, input =>
    match readLine input with
    | none => .ioError
    | some (header, r1) =>
      if header.head? = some 36 then
        match parseIntTrim (header.drop 1) with
        | none => .ioError
        | some sz =>
          if sz < 0 then .panicked
          else
            match takeExact sz.toNat r1 with
            | none => .ioError
            | some (arg, r2) =>
              match readLine r2 with
              | none => .ioError
              | some (tr, r3) =>
                readArgs n (argAcc ++ [arg]) (rawAcc ++ header ++ arg ++ tr) r3
      else .nilOk r1

/-- Model of `readRedisCommand` of `main.go`, over the remaining input bytes. -/
def readRedisCommand (input : List Byte) : ReadResult :=
  match readLine input with
  | none => .ioError
  | some (header, rest) =>
    if header = [10] ∨ header = [13, 10] then
      .ok { raw := header } rest
    else if header.head? = some 43 then
      .ok { raw := header, reply := trimSpace (header.drop 1) } rest
    else if header.head? = some 36 then
      match parseIntTrim (header.drop 1) with
      | none => .ioError
      | some n => .ok { raw := header, bulkSize := n } rest
    else if header.head? = some 42 then
      match parseIntTrim (header.drop 1) with
      | none => .ioError
      | some k => if k < 0 then .panicked else readArgs k.toNat [] header rest
    else
      .ok { raw := header, command := some [trimSpace header] } rest

/-- Go's `len(command.command)` (0 for the nil slice) view of the argv. -/
def argvOf (c : RedisCommand) : List (List Byte) := c.command.getD []

def errUnknownReply : List Byte := strBytes "+ERR unknown command\r\n"

/-- One iteration of the `slaveReader` loop for a decoded frame: the pair
(messages sent to `masterchannel`, messages sent to `slavechannel`). -/
def slaveStep (c : RedisCommand) : List (List Byte) × List (List Byte) :=
  if c.reply ≠ [] ∨ (c.command = none ∧ c.bulkSize = 0) then ([c.raw], [])
  else if (argvOf c).length = 1 ∧ (argvOf c).getD 0 [] = strBytes "PING" then ([c.raw], [])
  else if (argvOf c).length = 1 ∧ (argvOf c).getD 0 [] = strBytes "SYNC" then ([c.raw], [])
  else if (argvOf c).length = 3 ∧ (argvOf c).getD 0 [] = strBytes "REPLCONF" ∧
      (argvOf c).getD 1 [] = strBytes "ACK" then ([c.raw], [])
  else ([], [errUnknownReply])

/-- One iteration of the `masterConnection` loop for a decoded frame, with
the key predicate `m` standing for `keyRegexp.FindStringIndex(key) != nil`:
the pair (messages sent to `slavechannel` before any RDB transfer,
`some bulkSize` when `FilterRDB` is invoked for this frame). -/
def masterStep (m : List Byte → Bool) (c : RedisCommand) :
    List (List Byte) × Option Int :=
  if c.reply ≠ [] ∨ (c.command = none ∧ c.bulkSize = 0) then ([c.raw], none)
  else if (argvOf c).length = 1 ∧ (argvOf c).getD 0 [] = strBytes "PING" then ([c.raw], none)
  else if 0 < c.bulkSize then ([c.raw], some c.bulkSize)
  else if 2 ≤ (argvOf c).length ∧ m ((argvOf c).getD 1 []) = false then ([], none)
  else ([c.raw], none)

/-!
Part 2: the snapshot filter.

`FilterRDB` is invoked by `masterConnection` but its definition is not part
of this repository snapshot, so it is modelled from the specification
(§4.4): length coding (§4.4.2), string encodings (§4.4.3), top-level
opcodes (§4.4.4), value-type decoders (§4.4.5), emission discipline
(§4.4.6) and finalization (§4.4.7).  LZF decompression is not specified
algorithmically, so the filter is parametric in a decompressor
`lzf : compressed bytes → uncompressed size → bytes`.
-/

/-- A decoded length prefix: either an actual length or a special string
encoding selector (top two bits `11`). -/
inductive LenTok where
  | len (n : Nat)
  | special (sel : Nat)
deriving Repr, DecidableEq

/-- Modelled from the spec: integer length coding (§4.4.2).  Returns the
token, the raw bytes consumed, and the remaining input. -/
def readLength : List Byte → Option (LenTok × List Byte × List Byte)
  | [] => none
  | b :: rest =>
    if b < 64 then some (.len b, [b], rest)
    else if b < 128 then
      match rest with
      | b2 :: r => some (.len ((b - 64) * 256 + b2), [b, b2], r)
      | [] => none
    else if b = 128 then
      match rest with
      | a :: c :: d :: e :: r =>
        some (.len (a * 2 ^ 24 + c * 2 ^ 16 + d * 2 ^ 8 + e), [b, a, c, d, e], r)
      | _ => none
    else if b = 129 then
      match rest with
      | a :: c :: d :: e :: f :: g :: h :: i :: r =>
        some (.len (a * 2 ^ 56 + c * 2 ^ 48 + d * 2 ^ 40 + e * 2 ^ 32 +
          f * 2 ^ 24 + g * 2 ^ 16 + h * 2 ^ 8 + i), [b, a, c, d, e, f, g, h, i], r)
      | _ => none
    else if 192 ≤ b then some (.special (b - 192), [b], rest)
    else none

/-- Modelled from the spec: a length prefix required to be an actual length
(resize hints, db selector, collection sizes). -/
def readLengthOnly (input : List Byte) : Option (Nat × List Byte × List Byte) :=
  match readLength input with
  | some (.len n, raw, rest) => some (n, raw, rest)
  | _ => none

def i8val (b : Nat) : Int := if b < 128 then (b : Int) else (b : Int) - 256

def i16val (lo hi : Nat) : Int :=
  let v : Nat := lo + 256 * hi
  if v < 2 ^ 15 then (v : Int) else (v : Int) - 2 ^ 16

def i32val (b0 b1 b2 b3 : Nat) : Int :=
  let v : Nat := b0 + 2 ^ 8 * b1 + 2 ^ 16 * b2 + 2 ^ 24 * b3
  if v < 2 ^ 31 then (v : Int) else (v : Int) - 2 ^ 32

/-- Decimal ASCII rendering of a signed integer. -/
def decBytes (i : Int) : List Byte := strBytes (toString i)

/-- Modelled from the spec: string encodings (§4.4.3).  Returns the decoded
value, the raw bytes consumed, and the remaining input. -/
def readStringEnc (lzf : List Byte → Nat → List Byte) (input : List Byte) :
    Option (List Byte × List Byte × List Byte) :=
  match readLength input with
  | none => none
  | some (.len n, raw0, r1) =>
    match takeExact n r1 with
    | none => none
    | some (s, rest) => some (s, raw0 ++ s, rest)
  | some (.special sel, raw0, r1) =>
    if sel = 0 then
      match r1 with
      | b :: rest => some (decBytes (i8val b), raw0 ++ [b], rest)
      | [] => none
    else if sel = 1 then
      match r1 with
      | lo :: hi :: rest => some (decBytes (i16val lo hi), raw0 ++ [lo, hi], rest)
      | _ => none
    else if sel = 2 then
      match r1 with
      | b0 :: b1 :: b2 :: b3 :: rest =>
        some (decBytes (i32val b0 b1 b2 b3), raw0 ++ [b0, b1, b2, b3], rest)
      | _ => none
    else if sel = 3 then
      match readLengthOnly r1 with
      | none => none
      | some (clen, rawc, r2) =>
        match readLengthOnly r2 with
        | none => none
        | some (ulen, rawu, r3) =>
          match takeExact clen r3 with
          | none => none
          | some (comp, rest) =>
            some (lzf comp ulen, raw0 ++ rawc ++ rawu ++ comp, rest)
    else none

/-- Modelled from the spec: a sorted-set score, a one-byte-length-prefixed
ASCII double (§4.4.5).  Returns raw bytes consumed and remaining input. -/
def readDouble : List Byte → Option (List Byte × List Byte)
  | [] => none
  | l :: r =>
    match takeExact l r with
    | none => none
    | some (d, rest) => some (l :: d, rest)

/-- Modelled from the spec: `n` consecutive strings; raw bytes consumed and
remaining input. -/
def readStringsN (lzf : List Byte → Nat → List Byte) :
    Nat → List Byte → Option (List Byte × List Byte)
  | 0, input => some ([], input)
  | n + 1, input =>
    match readStringEnc lzf input with
    | none => none
    | some (_, raw, r1) =>
      match readStringsN lzf n r1 with
      | none => none
      | some (raws, rest) => some (raw ++ raws, rest)

/-- Modelled from the spec: `n` sorted-set pairs (member string, score). -/
def readZSetN (lzf : List Byte → Nat → List Byte) :
    Nat → List Byte → Option (List Byte × List Byte)
  | 0, input => some ([], input)
  | n + 1, input =>
    match readStringEnc lzf input with
    | none => none
    | some (_, rawm, r1) =>
      match readDouble r1 with
      | none => none
      | some (rawd, r2) =>
        match readZSetN lzf n r2 with
        | none => none
        | some (raws, rest) => some (rawm ++ rawd ++ raws, rest)

/-- Modelled from the spec: value-type decoders (§4.4.5).  Consumes the
typed value for opcode `op`, returning its raw byte span. -/
def readValue (lzf : List Byte → Nat → List Byte) (op : Nat) (input : List Byte) :
    Option (List Byte × List Byte) :=
  if op = 0 then
    match readStringEnc lzf input with
    | none => none
    | some (_, raw, rest) => some (raw, rest)
  else if op = 1 ∨ op = 2 then
    match readLengthOnly input with
    | none => none
    | some (n, raw0, r1) =>
      match readStringsN lzf n r1 with
      | none => none
      | some (raws, rest) => some (raw0 ++ raws, rest)
  else if op = 3 then
    match readLengthOnly input with
    | none => none
    | some (n, raw0, r1) =>
      match readZSetN lzf n r1 with
      | none => none
      | some (raws, rest) => some (raw0 ++ raws, rest)
  else if op = 4 then
    match readLengthOnly input with
    | none => none
    | some (n, raw0, r1) =>
      match readStringsN lzf (2 * n) r1 with
      | none => none
      | some (raws, rest) => some (raw0 ++ raws, rest)
  else if op = 9 ∨ op = 10 ∨ op = 11 ∨ op = 12 ∨ op = 13 then
    match readStringEnc lzf input with
    | none => none
    | some (_, raw, rest) => some (raw, rest)
  else if op = 14 then
    match readLengthOnly input with
    | none => none
    | some (n, raw0, r1) =>
      match readStringsN lzf n r1 with
      | none => none
      | some (raws, rest) => some (raw0 ++ raws, rest)
  else none

/-- The value-type opcodes of §4.4.5. -/
def isValueType (op : Nat) : Bool :=
  op = 0 || op = 1 || op = 2 || op = 3 || op = 4 || op = 9 || op = 10 ||
  op = 11 || op = 12 || op = 13 || op = 14

/-- Modelled from the spec: the record loop of the snapshot filter
(§4.4.4–§4.4.7).  `pending` buffers the raw bytes of an expiry opcode that
decorates the next entry; the result is the emitted output together with
the input remaining after the 8-byte CRC trailer.  Fuel bounds the number
of records; each record consumes at least one byte, so fuel equal to the
input length always suffices. -/
def filterRecords (m : List Byte → Bool) (lzf : List Byte → Nat → List Byte) :
    Nat → Option (List Byte) → List Byte → Option (List Byte × List Byte)
  | 0, _, _ => none
  | _ + 1, _, [] => none
  | fuel + 1, pending, op :: input =>
    if op = 250 then
      match readStringEnc lzf input with
      | none => none
      | some (_, raw1, r1) =>
        match readStringEnc lzf r1 with
        | none => none
        | some (_, raw2, r2) =>
          match filterRecords m lzf fuel pending r2 with
          | none => none
          | some (out, fin) => some (op :: (raw1 ++ raw2 ++ out), fin)
    else if op = 251 then
      if pending.isSome then none
      else
        match readLengthOnly input with
        | none => none
        | some (_, raw1, r1) =>
          match readLengthOnly r1 with
          | none => none
          | some (_, raw2, r2) =>
            match filterRecords m lzf fuel none r2 with
            | none => none
            | some (out, fin) => some (op :: (raw1 ++ raw2 ++ out), fin)
    else if op = 252 then
      if pending.isSome then none
      else
        match takeExact 8 input with
        | none => none
        | some (e, r) => filterRecords m lzf fuel (some (op :: e)) r
    else if op = 253 then
      if pending.isSome then none
      else
        match takeExact 4 input with
        | none => none
        | some (e, r) => filterRecords m lzf fuel (some (op :: e)) r
    else if op = 254 then
      if pending.isSome then none
      else
        match readLengthOnly input with
        | none => none
        | some (_, raw1, r1) =>
          match filterRecords m lzf fuel none r1 with
          | none => none
          | some (out, fin) => some (op :: (raw1 ++ out), fin)
    else if op = 255 then
      if pending.isSome then none
      else
        match takeExact 8 input with
        | none => none
        | some (crc, fin) => some (op :: crc, fin)
    else if isValueType op then
      match readStringEnc lzf input with
      | none => none
      | some (key, keyRaw, r1) =>
        match readValue lzf op r1 with
        | none => none
        | some (valRaw, r2) =>
          match filterRecords m lzf fuel none r2 with
          | none => none
          | some (out, fin) =>
            some ((if m key then pending.getD [] ++ op :: (keyRaw ++ valRaw) else []) ++ out,
              fin)
    else none

/-- Modelled from the spec: `FilterRDB` — the snapshot filter invoked by
`masterConnection`, whose definition is not part of this repository
snapshot.  Reads the 9-byte header (`REDIS` magic plus 4-byte version),
runs the record loop, and checks that exactly `bulkSize + 8` bytes were
consumed (§4.4.1, §4.4.7).  Returns the emitted bytes and the input
remaining for the next RESP frame. -/
def FilterRDB (m : List Byte → Bool) (lzf : List Byte → Nat → List Byte)
    (bulkSize : Int) (input : List Byte) : Option (List Byte × List Byte) :=
  match takeExact 9 input with
  | none => none
  | some (hdr, rest) =>
    if hdr.take 5 = strBytes "REDIS" then
      match filterRecords m lzf rest.length none rest with
      | none => none
      | some (out, fin) =>
        if ((input.length - fin.length : Nat) : Int) = bulkSize + 8 then
          some (hdr ++ out, fin)
        else none
    else none

/-!
Part 3: structured snapshots and their encoding.

A well-formed snapshot (spec §3, "Snapshot record model") is represented
structurally and serialized by an encoder that follows the same wire
grammar the filter decodes.  Claims about the filter are settled against
encoded snapshots.
-/

/-- Big-endian 4-byte rendering of `n < 2^32`. -/
def be32 (n : Nat) : List Byte :=
  [n / 2 ^ 24 % 256, n / 2 ^ 16 % 256, n / 2 ^ 8 % 256, n % 256]

/-- Big-endian 8-byte rendering of `n < 2^64`. -/
def be64 (n : Nat) : List Byte :=
  [n / 2 ^ 56 % 256, n / 2 ^ 48 % 256, n / 2 ^ 40 % 256, n / 2 ^ 32 % 256,
   n / 2 ^ 24 % 256, n / 2 ^ 16 % 256, n / 2 ^ 8 % 256, n % 256]

/-- Length-prefix encoding (§4.4.2), choosing the shortest form. -/
def encLen (n : Nat) : List Byte :=
  if n < 64 then [n]
  else if n < 16384 then [64 + n / 256, n % 256]
  else if n < 2 ^ 32 then 128 :: be32 n
  else 129 :: be64 n

/-- A plain length-prefixed string token. -/
def encStr (s : List Byte) : List Byte := encLen s.length ++ s

/-- A one-byte-length-prefixed ASCII double token. -/
def encDouble (d : List Byte) : List Byte := d.length :: d

/-- A snapshot value (spec §4.4.5), with packed forms as opaque blobs. -/
inductive SnapValue where
  | str (s : List Byte)
  | list (xs : List (List Byte))
  | set (xs : List (List Byte))
  | zset (xs : List (List Byte × List Byte))
  | hash (xs : List (List Byte × List Byte))
  | zipmap (b : List Byte)
  | ziplist (b : List Byte)
  | intset (b : List Byte)
  | zsetZiplist (b : List Byte)
  | hashZiplist (b : List Byte)
  | quicklist (xs : List (List Byte))
deriving Repr, DecidableEq

def SnapValue.opcode : SnapValue → Nat
  | .str _ => 0
  | .list _ => 1
  | .set _ => 2
  | .zset _ => 3
  | .hash _ => 4
  | .zipmap _ => 9
  | .ziplist _ => 10
  | .intset _ => 11
  | .zsetZiplist _ => 12
  | .hashZiplist _ => 13
  | .quicklist _ => 14

def SnapValue.encode : SnapValue → List Byte
  | .str s => encStr s
  | .list xs => encLen xs.length ++ xs.flatMap encStr
  | .set xs => encLen xs.length ++ xs.flatMap encStr
  | .zset xs => encLen xs.length ++ xs.flatMap (fun p => encStr p.1 ++ encDouble p.2)
  | .hash xs => encLen xs.length ++ xs.flatMap (fun p => encStr p.1 ++ encStr p.2)
  | .zipmap b => encStr b
  | .ziplist b => encStr b
  | .intset b => encStr b
  | .zsetZiplist b => encStr b
  | .hashZiplist b => encStr b
  | .quicklist xs => encLen xs.length ++ xs.flatMap encStr

/-- Side conditions under which the encoder emits exactly the grammar the
filter decodes: every length fits the length coding, and each sorted-set
score fits its one-byte length prefix. -/
def SnapValue.WF : SnapValue → Bool
  | .str s => s.length < 2 ^ 64
  | .list xs => xs.length < 2 ^ 64 && xs.all (fun x => x.length < 2 ^ 64)
  | .set xs => xs.length < 2 ^ 64 && xs.all (fun x => x.length < 2 ^ 64)
  | .zset xs => xs.length < 2 ^ 64 &&
      xs.all (fun p => p.1.length < 2 ^ 64 && p.2.length < 256)
  | .hash xs => xs.length < 2 ^ 64 &&
      xs.all (fun p => p.1.length < 2 ^ 64 && p.2.length < 2 ^ 64)
  | .zipmap b => b.length < 2 ^ 64
  | .ziplist b => b.length < 2 ^ 64
  | .intset b => b.length < 2 ^ 64
  | .zsetZiplist b => b.length < 2 ^ 64
  | .hashZiplist b => b.length < 2 ^ 64
  | .quicklist xs => xs.length < 2 ^ 64 && xs.all (fun x => x.length < 2 ^ 64)

/-- An entry: optional expiry prefix (`true` = milliseconds, opcode `0xFC`
with 8 payload bytes; `false` = seconds, opcode `0xFD` with 4), the key and
the typed value (spec §3). -/
structure SnapEntry where
  expiry : Option (Bool × List Byte) := none
  key : List Byte
  value : SnapValue
deriving Repr, DecidableEq

def encExpiry : Option (Bool × List Byte) → List Byte
  | none => []
  | some (true, e) => 252 :: e
  | some (false, e) => 253 :: e

def SnapEntry.encode (e : SnapEntry) : List Byte :=
  encExpiry e.expiry ++ e.value.opcode :: (encStr e.key ++ e.value.encode)

def SnapEntry.WF (e : SnapEntry) : Bool :=
  (match e.expiry with
   | none => true
   | some (true, b) => b.length = 8
   | some (false, b) => b.length = 4) &&
  e.key.length < 2 ^ 64 && e.value.WF

/-- A top-level snapshot record (spec §3, §4.4.4). -/
inductive SnapRecord where
  | aux (k v : List Byte)
  | resizeDb (a b : Nat)
  | selectDb (n : Nat)
  | entry (e : SnapEntry)
deriving Repr, DecidableEq

def SnapRecord.encode : SnapRecord → List Byte
  | .aux k v => 250 :: (encStr k ++ encStr v)
  | .resizeDb a b => 251 :: (encLen a ++ encLen b)
  | .selectDb n => 254 :: encLen n
  | .entry e => e.encode

def SnapRecord.WF : SnapRecord → Bool
  | .aux k v => k.length < 2 ^ 64 && v.length < 2 ^ 64
  | .resizeDb a b => a < 2 ^ 64 && b < 2 ^ 64
  | .selectDb n => n < 2 ^ 64
  | .entry e => e.WF

def SnapRecord.isEntry : SnapRecord → Bool
  | .entry _ => true
  | _ => false

/-- A whole snapshot: header version, records, and the CRC trailer. -/
structure Snapshot where
  version : List Byte
  records : List SnapRecord
  crc : List Byte
deriving Repr, DecidableEq

/-- The bulk payload announced by the `$N` header: everything up to and
including the EOF opcode (the CRC trailer is the 8 bytes after it). -/
def Snapshot.payload (s : Snapshot) : List Byte :=
  strBytes "REDIS" ++ s.version ++ s.records.flatMap SnapRecord.encode ++ [255]

def Snapshot.encode (s : Snapshot) : List Byte := s.payload ++ s.crc

def Snapshot.WF (s : Snapshot) : Bool :=
  s.version.length = 4 && s.crc.length = 8 && s.records.all SnapRecord.WF

/-- The bytes a record contributes to the filtered output: entries survive
exactly when the predicate admits their key (expiry prefix included);
every other record is copied verbatim. -/
def keepRecord (m : List Byte → Bool) : SnapRecord → List Byte
  | .entry e => if m e.key then SnapEntry.encode e else []
  | r => r.encode

/-- The expected output of the filter on an encoded snapshot. -/
def Snapshot.filtered (m : List Byte → Bool) (s : Snapshot) : List Byte :=
  strBytes "REDIS" ++ s.version ++ s.records.flatMap (keepRecord m) ++ [255] ++ s.crc

/-- The decoded S6 frame `GET k` from the replica. -/
def getFrame : RedisCommand :=
  { raw := strBytes "*2\r\n$3\r\nGET\r\n$1\r\nk\r\n",
    command := some [strBytes "GET", strBytes "k"] }

/-- The decoded `$0` bulk-header frame. -/
def bulk0Frame : RedisCommand := { raw := strBytes "$0\r\n" }

/-- The decoded lowercase `ping` array frame from the replica. -/
def pingLowerFrame : RedisCommand :=
  { raw := strBytes "*1\r\n$4\r\nping\r\n", command := some [strBytes "ping"] }

/-- The decoded uppercase `PING` array frame from the replica. -/
def pingUpperFrame : RedisCommand :=
  { raw := strBytes "*1\r\n$4\r\nPING\r\n", command := some [strBytes "PING"] }

/-- A minimal encoded snapshot: empty record list, version `0006`. -/
def miniRdb : List Byte := strBytes "REDIS0006" ++ [255] ++ [1, 2, 3, 4, 5, 6, 7, 8]

/-- A predicate admitting exactly the keys with prefix `keep:`. -/
def demoPred (k : List Byte) : Bool := k.take 5 = strBytes "keep:"

/-- A trivial stand-in for the LZF decompressor (never consulted by the
demo snapshot, whose strings are all plainly encoded). -/
def demoLzf (c : List Byte) (u : Nat) : List Byte := c

/-- A snapshot exercising every supported record and value-type opcode. -/
def demoSnap : Snapshot :=
  { version := strBytes "0006",
    records := [
      .aux (strBytes "redis-ver") (strBytes "7.0"),
      .resizeDb 4 2,
      .selectDb 0,
      .entry { expiry := some (true, [1, 2, 3, 4, 5, 6, 7, 8]), key := strBytes "keep:s",
               value := .str (strBytes "hello") },
      .entry { expiry := some (false, [9, 8, 7, 6]), key := strBytes "drop:s",
               value := .str (strBytes "x") },
      .entry { key := strBytes "keep:l", value := .list [strBytes "a", strBytes "bc"] },
      .entry { key := strBytes "drop:set", value := .set [strBytes "m1"] },
      .entry { key := strBytes "keep:z",
               value := .zset [(strBytes "m", strBytes "1.5"), (strBytes "n", strBytes "2")] },
      .entry { key := strBytes "keep:h", value := .hash [(strBytes "f", strBytes "v")] },
      .entry { key := strBytes "keep:zm", value := .zipmap [0, 1, 2] },
      .entry { key := strBytes "drop:zl", value := .ziplist [3, 4] },
      .entry { key := strBytes "keep:is", value := .intset [5] },
      .entry { key := strBytes "keep:sz", value := .zsetZiplist [6] },
      .entry { key := strBytes "keep:hz", value := .hashZiplist [] },
      .entry { key := strBytes "keep:ql",
               value := .quicklist [strBytes "zl1", strBytes "zl2"] }],
    crc := [11, 22, 33, 44, 55, 66, 77, 88] }

/-!
Part 4: lemmas about the RESP decoder.
-/

theorem readLine_eq : ∀ (input l r : List Byte), readLine input = some (l, r) → l ++ r = input := by
  intro input
  induction input with
  | nil => intro l r h; simp [readLine] at h
  | cons b rest ih =>
    intro l r h
    simp only [readLine] at h
    by_cases hb : b = 10
    · rw [if_pos hb] at h
      simp only [Option.some.injEq, Prod.mk.injEq] at h
      obtain ⟨h1, h2⟩ := h
      subst h1; subst h2; subst hb; rfl
    · rw [if_neg hb] at h
      cases hr : readLine rest with
      | none => rw [hr] at h; simp at h
      | some p =>
        obtain ⟨line, r2⟩ := p
        rw [hr] at h
        simp only [Option.some.injEq, Prod.mk.injEq] at h
        obtain ⟨h1, h2⟩ := h
        subst h1; subst h2
        have := ih line r2 hr
        simpa using this

theorem readLine_ne_nil (input l r : List Byte) (h : readLine input = some (l, r)) :
    l ≠ [] := by
  cases input with
  | nil => simp [readLine] at h
  | cons b rest =>
    simp only [readLine] at h
    by_cases hb : b = 10
    · rw [if_pos hb] at h
      simp only [Option.some.injEq, Prod.mk.injEq] at h
      rw [← h.1]
      simp
    · rw [if_neg hb] at h
      cases hr : readLine rest with
      | none => rw [hr] at h; simp at h
      | some p =>
        obtain ⟨line, r2⟩ := p
        rw [hr] at h
        simp only [Option.some.injEq, Prod.mk.injEq] at h
        rw [← h.1]
        simp

theorem takeExact_eq (n : Nat) (l a r : List Byte) (h : takeExact n l = some (a, r)) :
    a ++ r = l ∧ a.length = n := by
  simp only [takeExact] at h
  split at h
  · simp only [Option.some.injEq, Prod.mk.injEq] at h
    obtain ⟨h1, h2⟩ := h
    subst h1; subst h2
    refine ⟨List.take_append_drop _ _, ?_⟩
    simpa using ‹n ≤ l.length›
  · simp at h

theorem readArgs_ok : ∀ (n : Nat) (argAcc : List (List Byte)) (rawAcc input : List Byte)
    (c : RedisCommand) (rest : List Byte), readArgs n argAcc rawAcc input = .ok c rest →
    ∃ mid extra, input = mid ++ rest ∧ c.raw = rawAcc ++ mid ∧
      c.command = some (argAcc ++ extra) ∧ c.reply = [] ∧ c.bulkSize = 0 := by
  intro n
  induction n with
  | zero =>
    intro argAcc rawAcc input c rest h
    simp only [readArgs] at h
    injection h with h1 h2
    subst h1; subst h2
    exact ⟨[], [], by simp, by simp, by simp, rfl, rfl⟩
  | succ n ih =>
    intro argAcc rawAcc input c rest h
    simp only [readArgs] at h
    cases hl : readLine input with
    | none => rw [hl] at h; simp at h
    | some p =>
      obtain ⟨header, r1⟩ := p
      rw [hl] at h
      dsimp only at h
      by_cases hp : header.head? = some 36
      · rw [if_pos hp] at h
        cases hpi : parseIntTrim (header.drop 1) with
        | none => rw [hpi] at h; simp at h
        | some sz =>
          rw [hpi] at h
          dsimp only at h
          by_cases hsz : sz < 0
          · rw [if_pos hsz] at h; simp at h
          · rw [if_neg hsz] at h
            cases hte : takeExact sz.toNat r1 with
            | none => rw [hte] at h; simp at h
            | some q =>
              obtain ⟨arg, r2⟩ := q
              rw [hte] at h
              dsimp only at h
              cases hl2 : readLine r2 with
              | none => rw [hl2] at h; simp at h
              | some t =>
                obtain ⟨tr, r3⟩ := t
                rw [hl2] at h
                dsimp only at h
                obtain ⟨mid, extra, e1, e2, e3, e4, e5⟩ := ih _ _ _ _ _ h
                refine ⟨header ++ arg ++ tr ++ mid, arg :: extra, ?_, ?_, ?_, e4, e5⟩
                · have hi := readLine_eq _ _ _ hl
                  have ht := (takeExact_eq _ _ _ _ hte).1
                  have hi2 := readLine_eq _ _ _ hl2
                  subst e1
                  rw [← hi, ← ht, ← hi2]
                  simp [List.append_assoc]
                · rw [e2]; simp [List.append_assoc]
                · rw [e3]; simp
      · rw [if_neg hp] at h; simp at h

/-- Decoded frames: `raw` is exactly the byte sequence consumed from the
reader, and any frame with a decoded argv has empty `reply` and zero
`bulkSize` (and conversely the bulk/reply/empty frames carry a nil argv). -/
theorem readRedisCommand_ok (input : List Byte) (c : RedisCommand) (rest : List Byte)
    (h : readRedisCommand input = .ok c rest) :
    c.raw ++ rest = input ∧ c.raw ≠ [] ∧
      (c.command = none ∨ (c.reply = [] ∧ c.bulkSize = 0)) := by
  simp only [readRedisCommand] at h
  cases hl : readLine input with
  | none => rw [hl] at h; simp at h
  | some p =>
    obtain ⟨header, r0⟩ := p
    rw [hl] at h
    dsimp only at h
    have hin := readLine_eq _ _ _ hl
    have hne := readLine_ne_nil _ _ _ hl
    by_cases h1 : header = [10] ∨ header = [13, 10]
    · rw [if_pos h1] at h
      injection h with hc hr
      subst hc; subst hr
      exact ⟨hin, hne, Or.inr ⟨rfl, rfl⟩⟩
    · rw [if_neg h1] at h
      by_cases h2 : header.head? = some 43
      · rw [if_pos h2] at h
        injection h with hc hr
        subst hc; subst hr
        exact ⟨hin, hne, Or.inl rfl⟩
      · rw [if_neg h2] at h
        by_cases h3 : header.head? = some 36
        · rw [if_pos h3] at h
          cases hpi : parseIntTrim (header.drop 1) with
          | none => rw [hpi] at h; simp at h
          | some n =>
            rw [hpi] at h
            dsimp only at h
            injection h with hc hr
            subst hc; subst hr
            exact ⟨hin, hne, Or.inl rfl⟩
        · rw [if_neg h3] at h
          by_cases h4 : header.head? = some 42
          · rw [if_pos h4] at h
            cases hpi : parseIntTrim (header.drop 1) with
            | none => rw [hpi] at h; simp at h
            | some k =>
              rw [hpi] at h
              dsimp only at h
              by_cases hk : k < 0
              · rw [if_pos hk] at h; simp at h
              · rw [if_neg hk] at h
                obtain ⟨mid, extra, e1, e2, e3, e4, e5⟩ := readArgs_ok _ _ _ _ _ _ h
                refine ⟨?_, ?_, Or.inr ⟨e4, e5⟩⟩
                · rw [e2, ← hin, e1]
                  simp [List.append_assoc]
                · rw [e2]
                  intro hcontra
                  exact hne (List.append_eq_nil.mp hcontra).1
          · rw [if_neg h4] at h
            injection h with hc hr
            subst hc; subst hr
            exact ⟨hin, hne, Or.inr ⟨rfl, rfl⟩⟩

/-!
Part 5: claims about the RESP pipeline.
-/

/-- C1. For every array frame decoded from the master with at least two
arguments, the master reader enqueues the frame's raw bytes to the slave
queue iff the key predicate matches `argv[1]`; a non-matching frame
contributes no bytes, and every array frame with fewer than two arguments
is forwarded raw without consulting the predicate. -/
theorem c1_key_filter (m : List Byte → Bool) (input : List Byte) (c : RedisCommand)
    (rest : List Byte) (args : List (List Byte))
    (hdec : readRedisCommand input = .ok c rest) (hc : c.command = some args) :
    (2 ≤ args.length →
      ((masterStep m c = ([c.raw], none) ↔ m (args.getD 1 []) = true) ∧
       (m (args.getD 1 []) = false → masterStep m c = ([], none)))) ∧
    (args.length < 2 → masterStep m c = ([c.raw], none)) := by
  obtain ⟨-, -, hshape⟩ := readRedisCommand_ok _ _ _ hdec
  have hrb : c.reply = [] ∧ c.bulkSize = 0 := by
    rcases hshape with h | h
    · rw [hc] at h; cases h
    · exact h
  have hb1 : ¬(c.reply ≠ [] ∨ (c.command = none ∧ c.bulkSize = 0)) := by
    rw [hrb.1, hc]
    simp
  constructor
  · intro hlen
    have hb2 : ¬((argvOf c).length = 1 ∧ (argvOf c).getD 0 [] = strBytes "PING") := by
      simp only [argvOf, hc, Option.getD_some]
      intro hcontra
      omega
    have hb3 : ¬(0 < c.bulkSize) := by rw [hrb.2]; simp
    cases hm : m (args.getD 1 []) with
    | true =>
      have hb4 : ¬(2 ≤ (argvOf c).length ∧ m ((argvOf c).getD 1 []) = false) := by
        simp only [argvOf, hc, Option.getD_some, hm]
        intro hcontra
        simp at hcontra
      unfold masterStep
      rw [if_neg hb1, if_neg hb2, if_neg hb3, if_neg hb4]
      exact ⟨by simp, by simp⟩
    | false =>
      have hb4 : 2 ≤ (argvOf c).length ∧ m ((argvOf c).getD 1 []) = false := by
        simp only [argvOf, hc, Option.getD_some]
        exact ⟨hlen, hm⟩
      unfold masterStep
      rw [if_neg hb1, if_neg hb2, if_neg hb3, if_pos hb4]
      refine ⟨⟨fun habs => ?_, fun habs => by simp at habs⟩, fun _ => rfl⟩
      have hfst : ([] : List (List Byte)) = [c.raw] := congrArg Prod.fst habs
      simp at hfst
  · intro hlen
    have hb3 : ¬(0 < c.bulkSize) := by rw [hrb.2]; simp
    have hb4 : ¬(2 ≤ (argvOf c).length ∧ m ((argvOf c).getD 1 []) = false) := by
      simp only [argvOf, hc, Option.getD_some]
      intro hcontra
      omega
    unfold masterStep
    rw [if_neg hb1]
    by_cases hb2 : (argvOf c).length = 1 ∧ (argvOf c).getD 0 [] = strBytes "PING"
    · rw [if_pos hb2]
    · rw [if_neg hb2, if_neg hb3, if_neg hb4]

/-- C1 witness: the S4 scenario, `SET keep:a v` under a predicate
admitting `keep:a`, is forwarded raw. -/
theorem c1_key_filter_witness :
    masterStep (fun k => decide (k = strBytes "keep:a"))
      { raw := strBytes "*3\r\n$3\r\nSET\r\n$6\r\nkeep:a\r\n$1\r\nv\r\n",
        command := some [strBytes "SET", strBytes "keep:a", strBytes "v"] } =
      ([strBytes "*3\r\n$3\r\nSET\r\n$6\r\nkeep:a\r\n$1\r\nv\r\n"], none) :=
  ((c1_key_filter (fun k => decide (k = strBytes "keep:a"))
      (strBytes "*3\r\n$3\r\nSET\r\n$6\r\nkeep:a\r\n$1\r\nv\r\n")
      { raw := strBytes "*3\r\n$3\r\nSET\r\n$6\r\nkeep:a\r\n$1\r\nv\r\n",
        command := some [strBytes "SET", strBytes "keep:a", strBytes "v"] }
      [] [strBytes "SET", strBytes "keep:a", strBytes "v"]
      (by decide) rfl).1 (by decide)).1.mpr (by decide)

/-- C3 counterexample. At the spec's own S6 input the slave reader
enqueues `"+ERR unknown command\r\n"` — a `+` simple string, not the
claimed `"-ERR unknown command\r\n"` — and a `$0` bulk header, which is
none of the claim's admitted frames, is forwarded to the master queue
rather than answered with an error. -/
theorem c3_counterexample :
    readRedisCommand (strBytes "*2\r\n$3\r\nGET\r\n$1\r\nk\r\n") = .ok getFrame [] ∧
    slaveStep getFrame = ([], [strBytes "+ERR unknown command\r\n"]) ∧
    slaveStep getFrame ≠ ([], [strBytes "-ERR unknown command\r\n"]) ∧
    readRedisCommand (strBytes "$0\r\n") = .ok bulk0Frame [] ∧
    slaveStep bulk0Frame = ([bulk0Frame.raw], []) := by decide

/-- C3 (amended). For every frame read from the replica that is not a
passthrough frame (nonempty reply, or nil argv with bulk size 0 — an empty
line or a `$0` header), does not decode to the single command `PING` or
`SYNC`, and is not the three-argument `REPLCONF ACK` form, the slave
reader enqueues exactly `"+ERR unknown command\r\n"` to the slave queue
and nothing to the master queue. -/
theorem c3_unknown_reply (input : List Byte) (c : RedisCommand) (rest : List Byte)
    (hdec : readRedisCommand input = .ok c rest)
    (h1 : c.reply = []) (h2 : ¬(c.command = none ∧ c.bulkSize = 0))
    (h3 : ¬((argvOf c).length = 1 ∧ (argvOf c).getD 0 [] = strBytes "PING"))
    (h4 : ¬((argvOf c).length = 1 ∧ (argvOf c).getD 0 [] = strBytes "SYNC"))
    (h5 : ¬((argvOf c).length = 3 ∧ (argvOf c).getD 0 [] = strBytes "REPLCONF" ∧
        (argvOf c).getD 1 [] = strBytes "ACK")) :
    slaveStep c = ([], [strBytes "+ERR unknown command\r\n"]) := by
  unfold slaveStep
  rw [if_neg, if_neg h3, if_neg h4, if_neg h5]
  · rfl
  · rintro (hr | hcb)
    · exact hr h1
    · exact h2 hcb

/-- C3 witness: the S6 `GET k` frame receives the unknown-command
reply and contributes nothing to the master queue. -/
theorem c3_unknown_reply_witness :
    slaveStep getFrame = ([], [strBytes "+ERR unknown command\r\n"]) :=
  c3_unknown_reply (strBytes "*2\r\n$3\r\nGET\r\n$1\r\nk\r\n") getFrame []
    (by decide) (by decide) (by decide) (by decide) (by decide) (by decide)

/-- C4. For every byte stream from which `readRedisCommand` returns a
frame, the frame's `raw` field equals byte for byte the sequence consumed
from the reader, and every forwarding action of the classifiers enqueues
exactly that raw field (the only other enqueue is the constant error
reply). -/
theorem c4_forwarding_fidelity (m : List Byte → Bool) (input : List Byte)
    (c : RedisCommand) (rest : List Byte)
    (hdec : readRedisCommand input = .ok c rest) :
    c.raw ++ rest = input ∧
    ((slaveStep c).1 = [c.raw] ∨
      (slaveStep c).1 = [] ∧ (slaveStep c).2 = [strBytes "+ERR unknown command\r\n"]) ∧
    ((masterStep m c).1 = [c.raw] ∨ (masterStep m c).1 = []) := by
  refine ⟨(readRedisCommand_ok _ _ _ hdec).1, ?_, ?_⟩
  · unfold slaveStep
    split
    · exact Or.inl rfl
    · split
      · exact Or.inl rfl
      · split
        · exact Or.inl rfl
        · split
          · exact Or.inl rfl
          · exact Or.inr ⟨rfl, rfl⟩
  · unfold masterStep
    split
    · exact Or.inl rfl
    · split
      · exact Or.inl rfl
      · split
        · exact Or.inl rfl
        · split
          · exact Or.inr rfl
          · exact Or.inl rfl

/-- C4 witness at the S1 input `*1\r\n$4\r\nPING\r\n`. -/
theorem c4_forwarding_fidelity_witness :
    { raw := strBytes "*1\r\n$4\r\nPING\r\n",
      command := some [strBytes "PING"] : RedisCommand }.raw ++ [] =
      strBytes "*1\r\n$4\r\nPING\r\n" :=
  (c4_forwarding_fidelity (fun _ => true) (strBytes "*1\r\n$4\r\nPING\r\n")
    { raw := strBytes "*1\r\n$4\r\nPING\r\n", command := some [strBytes "PING"] }
    [] (by decide)).1

/-- C5, code behavior at the failing input. On `*1\r\nX\r\n` — an
array whose argument-group header does not start with `$` — the decoder
returns a nil frame together with a nil error (`nilOk`), not an error:
line 72 of `main.go` returns `err`, which is nil in that branch. -/
theorem c5_bad_group_nil_nil :
    readRedisCommand (strBytes "*1\r\nX\r\n") = .nilOk [] := by decide

/-- C9, code behavior at the failing input. `readRedisCommand` can
return a nil frame with a nil error, so the classifiers' nil-dereference
is reachable: on `*2\r\n$1\r\na\r\nY\r\n` the decoder returns `nilOk`,
and both readers would dereference the nil `command` pointer and panic. -/
theorem c9_nil_frame_nil_error :
    readRedisCommand (strBytes "*2\r\n$1\r\na\r\nY\r\n") = .nilOk [] := by decide

/-- C8 counterexample. The verb is never uppercased: the replica frame
`array([ping])` is answered with the unknown-command reply, while its
uppercase form `array([PING])` is forwarded raw, so the two are not
classified the same. -/
theorem c8_counterexample :
    readRedisCommand (strBytes "*1\r\n$4\r\nping\r\n") = .ok pingLowerFrame [] ∧
    readRedisCommand (strBytes "*1\r\n$4\r\nPING\r\n") = .ok pingUpperFrame [] ∧
    slaveStep pingUpperFrame = ([pingUpperFrame.raw], []) ∧
    slaveStep pingLowerFrame = ([], [strBytes "+ERR unknown command\r\n"]) ∧
    slaveStep pingLowerFrame ≠ ([pingLowerFrame.raw], []) := by decide

/-- C8 (amended). `argv[0]` is compared by exact byte equality with no
case folding: any single-argument frame from the replica whose verb is not
byte-identical to `PING` or `SYNC` — in particular any lowercase form —
receives the unknown-command reply instead of being forwarded. -/
theorem c8_case_sensitive (input : List Byte) (c : RedisCommand) (rest : List Byte)
    (v : List Byte) (hdec : readRedisCommand input = .ok c rest)
    (hc : c.command = some [v]) (hp : v ≠ strBytes "PING") (hs : v ≠ strBytes "SYNC") :
    slaveStep c = ([], [strBytes "+ERR unknown command\r\n"]) := by
  obtain ⟨-, -, hshape⟩ := readRedisCommand_ok _ _ _ hdec
  have hrb : c.reply = [] ∧ c.bulkSize = 0 := by
    rcases hshape with h | h
    · rw [hc] at h; cases h
    · exact h
  unfold slaveStep
  rw [if_neg, if_neg, if_neg, if_neg]
  · rfl
  · simp only [argvOf, hc, Option.getD_some]
    rintro ⟨h1, -⟩
    simp at h1
  · simp only [argvOf, hc, Option.getD_some, List.getD_cons_zero]
    rintro ⟨-, habs⟩
    exact hs habs
  · simp only [argvOf, hc, Option.getD_some, List.getD_cons_zero]
    rintro ⟨-, habs⟩
    exact hp habs
  · rw [hrb.1, hc]
    simp

/-- C8 witness: the lowercase `ping` frame is rejected. -/
theorem c8_case_sensitive_witness :
    slaveStep pingLowerFrame = ([], [strBytes "+ERR unknown command\r\n"]) :=
  c8_case_sensitive (strBytes "*1\r\n$4\r\nping\r\n") pingLowerFrame []
    (strBytes "ping") (by decide) (by decide) (by decide) (by decide)

/-- C10. The master reader invokes the snapshot filter only for bulk
headers with strictly positive announced length: a decoded `$0` header is
forwarded raw through the passthrough ("empty command") branch — its
condition holds — while a negative-length header falls through every
earlier branch and is forwarded raw by the final command branch; in both
cases the filter is not invoked (no payload or CRC bytes are consumed). -/
theorem c10_filter_only_positive (m : List Byte → Bool) (input : List Byte)
    (c : RedisCommand) (rest : List Byte)
    (hdec : readRedisCommand input = .ok c rest)
    (hcmd : c.command = none) (hrep : c.reply = []) :
    (0 < c.bulkSize → masterStep m c = ([c.raw], some c.bulkSize)) ∧
    (c.bulkSize = 0 → masterStep m c = ([c.raw], none) ∧
      (c.reply ≠ [] ∨ (c.command = none ∧ c.bulkSize = 0))) ∧
    (c.bulkSize < 0 → masterStep m c = ([c.raw], none) ∧
      ¬(c.reply ≠ [] ∨ (c.command = none ∧ c.bulkSize = 0)) ∧
      ¬((argvOf c).length = 1 ∧ (argvOf c).getD 0 [] = strBytes "PING") ∧
      ¬(0 < c.bulkSize) ∧
      ¬(2 ≤ (argvOf c).length ∧ m ((argvOf c).getD 1 []) = false)) := by
  refine ⟨?_, ?_, ?_⟩
  · intro hpos
    unfold masterStep
    rw [if_neg, if_neg, if_pos hpos]
    · simp only [argvOf, hcmd, Option.getD_none]
      intro hcontra
      simp at hcontra
    · rw [hrep]
      rintro (hr | ⟨-, hb⟩)
      · exact hr rfl
      · omega
  · intro hzero
    have hb1 : c.reply ≠ [] ∨ (c.command = none ∧ c.bulkSize = 0) :=
      Or.inr ⟨hcmd, hzero⟩
    constructor
    · unfold masterStep
      rw [if_pos hb1]
    · exact hb1
  · intro hneg
    have hb1 : ¬(c.reply ≠ [] ∨ (c.command = none ∧ c.bulkSize = 0)) := by
      rw [hrep]
      rintro (hr | ⟨-, hb⟩)
      · exact hr rfl
      · omega
    have hb2 : ¬((argvOf c).length = 1 ∧ (argvOf c).getD 0 [] = strBytes "PING") := by
      simp only [argvOf, hcmd, Option.getD_none]
      intro hcontra
      simp at hcontra
    have hb3 : ¬(0 < c.bulkSize) := by omega
    have hb4 : ¬(2 ≤ (argvOf c).length ∧ m ((argvOf c).getD 1 []) = false) := by
      simp only [argvOf, hcmd, Option.getD_none]
      intro hcontra
      simp at hcontra
    refine ⟨?_, hb1, hb2, hb3, hb4⟩
    unfold masterStep
    rw [if_neg hb1, if_neg hb2, if_neg hb3, if_neg hb4]

/-- C10 witness at the decoded `$0` and `$-1` headers. -/
theorem c10_filter_only_positive_witness :
    masterStep (fun _ => true) bulk0Frame = ([bulk0Frame.raw], none) ∧
    masterStep (fun _ => true) { raw := strBytes "$-1\r\n", bulkSize := -1 } =
      ([strBytes "$-1\r\n"], none) :=
  ⟨((c10_filter_only_positive (fun _ => true) (strBytes "$0\r\n") bulk0Frame []
      (by decide) (by decide) (by decide)).2.1 (by decide)).1,
   ((c10_filter_only_positive (fun _ => true) (strBytes "$-1\r\n")
      { raw := strBytes "$-1\r\n", bulkSize := -1 } []
      (by decide) (by decide) (by decide)).2.2 (by decide)).1⟩

/-!
Part 6: consumption lemmas for the snapshot filter.
-/

theorem readLength_prefix (input : List Byte) (t : LenTok) (raw rest : List Byte)
    (h : readLength input = some (t, raw, rest)) : raw ++ rest = input := by
  cases input with
  | nil => simp [readLength] at h
  | cons b tl =>
    simp only [readLength] at h
    by_cases h1 : b < 64
    · rw [if_pos h1] at h
      simp only [Option.some.injEq, Prod.mk.injEq] at h
      obtain ⟨-, h2, h3⟩ := h
      subst h2; subst h3; rfl
    · rw [if_neg h1] at h
      by_cases h2 : b < 128
      · rw [if_pos h2] at h
        cases tl with
        | nil => simp at h
        | cons b2 r =>
          simp only [Option.some.injEq, Prod.mk.injEq] at h
          obtain ⟨-, h3, h4⟩ := h
          subst h3; subst h4; rfl
      · rw [if_neg h2] at h
        by_cases h3 : b = 128
        · rw [if_pos h3] at h
          cases tl with
          | nil => simp at h
          | cons a t1 =>
            cases t1 with
            | nil => simp at h
            | cons c t2 =>
              cases t2 with
              | nil => simp at h
              | cons d t3 =>
                cases t3 with
                | nil => simp at h
                | cons e r =>
                  simp only [Option.some.injEq, Prod.mk.injEq] at h
                  obtain ⟨-, h4, h5⟩ := h
                  subst h4; subst h5; subst h3; rfl
        · rw [if_neg h3] at h
          by_cases h4 : b = 129
          · rw [if_pos h4] at h
            cases tl with
            | nil => simp at h
            | cons a t1 =>
              cases t1 with
              | nil => simp at h
              | cons c t2 =>
                cases t2 with
                | nil => simp at h
                | cons d t3 =>
                  cases t3 with
                  | nil => simp at h
                  | cons e t4 =>
                    cases t4 with
                    | nil => simp at h
                    | cons f t5 =>
                      cases t5 with
                      | nil => simp at h
                      | cons g t6 =>
                        cases t6 with
                        | nil => simp at h
                        | cons hh t7 =>
                          cases t7 with
                          | nil => simp at h
                          | cons i r =>
                            simp only [Option.some.injEq, Prod.mk.injEq] at h
                            obtain ⟨-, h5, h6⟩ := h
                            subst h5; subst h6; subst h4; rfl
          · rw [if_neg h4] at h
            by_cases h5 : 192 ≤ b
            · rw [if_pos h5] at h
              simp only [Option.some.injEq, Prod.mk.injEq] at h
              obtain ⟨-, h6, h7⟩ := h
              subst h6; subst h7; rfl
            · rw [if_neg h5] at h
              simp at h

theorem readLengthOnly_prefix (input : List Byte) (n : Nat) (raw rest : List Byte)
    (h : readLengthOnly input = some (n, raw, rest)) : raw ++ rest = input := by
  unfold readLengthOnly at h
  cases hl : readLength input with
  | none => rw [hl] at h; simp at h
  | some p =>
    obtain ⟨tok, raw0, r1⟩ := p
    rw [hl] at h
    cases tok with
    | len k =>
      dsimp only at h
      simp only [Option.some.injEq, Prod.mk.injEq] at h
      obtain ⟨-, h2, h3⟩ := h
      subst h2; subst h3
      exact readLength_prefix _ _ _ _ hl
    | special s => dsimp only at h; simp at h

theorem readStringEnc_prefix (lzf : List Byte → Nat → List Byte) (input : List Byte)
    (dv raw rest : List Byte) (h : readStringEnc lzf input = some (dv, raw, rest)) :
    raw ++ rest = input := by
  unfold readStringEnc at h
  cases hl : readLength input with
  | none => rw [hl] at h; simp at h
  | some p =>
    obtain ⟨tok, raw0, r1⟩ := p
    rw [hl] at h
    have hpre := readLength_prefix _ _ _ _ hl
    cases tok with
    | len n =>
      dsimp only at h
      cases ht : takeExact n r1 with
      | none => rw [ht] at h; simp at h
      | some q =>
        obtain ⟨s, r2⟩ := q
        rw [ht] at h
        dsimp only at h
        obtain ⟨ht1, -⟩ := takeExact_eq _ _ _ _ ht
        simp only [Option.some.injEq, Prod.mk.injEq] at h
        obtain ⟨-, h2, h3⟩ := h
        subst h2; subst h3
        rw [← hpre, ← ht1]
        simp [List.append_assoc]
    | special sel =>
      dsimp only at h
      by_cases hs0 : sel = 0
      · rw [if_pos hs0] at h
        cases r1 with
        | nil => simp at h
        | cons b r2 =>
          simp only [Option.some.injEq, Prod.mk.injEq] at h
          obtain ⟨-, h2, h3⟩ := h
          subst h2; subst h3
          rw [← hpre]
          simp
      · rw [if_neg hs0] at h
        by_cases hs1 : sel = 1
        · rw [if_pos hs1] at h
          cases r1 with
          | nil => simp at h
          | cons lo r2 =>
            cases r2 with
            | nil => simp at h
            | cons hi r3 =>
              simp only [Option.some.injEq, Prod.mk.injEq] at h
              obtain ⟨-, h2, h3⟩ := h
              subst h2; subst h3
              rw [← hpre]
              simp
        · rw [if_neg hs1] at h
          by_cases hs2 : sel = 2
          · rw [if_pos hs2] at h
            cases r1 with
            | nil => simp at h
            | cons b0 r2 =>
              cases r2 with
              | nil => simp at h
              | cons b1 r3 =>
                cases r3 with
                | nil => simp at h
                | cons b2 r4 =>
                  cases r4 with
                  | nil => simp at h
                  | cons b3 r5 =>
                    simp only [Option.some.injEq, Prod.mk.injEq] at h
                    obtain ⟨-, h2, h3⟩ := h
                    subst h2; subst h3
                    rw [← hpre]
                    simp
          · rw [if_neg hs2] at h
            by_cases hs3 : sel = 3
            · rw [if_pos hs3] at h
              cases hlo1 : readLengthOnly r1 with
              | none => rw [hlo1] at h; simp at h
              | some q1 =>
                obtain ⟨clen, rawc, r2⟩ := q1
                rw [hlo1] at h
                dsimp only at h
                cases hlo2 : readLengthOnly r2 with
                | none => rw [hlo2] at h; simp at h
                | some q2 =>
                  obtain ⟨ulen, rawu, r3⟩ := q2
                  rw [hlo2] at h
                  dsimp only at h
                  cases ht : takeExact clen r3 with
                  | none => rw [ht] at h; simp at h
                  | some q3 =>
                    obtain ⟨comp, r4⟩ := q3
                    rw [ht] at h
                    dsimp only at h
                    simp only [Option.some.injEq, Prod.mk.injEq] at h
                    obtain ⟨-, h2, h3⟩ := h
                    subst h2; subst h3
                    have e1 := readLengthOnly_prefix _ _ _ _ hlo1
                    have e2 := readLengthOnly_prefix _ _ _ _ hlo2
                    obtain ⟨e3, -⟩ := takeExact_eq _ _ _ _ ht
                    rw [← hpre, ← e1, ← e2, ← e3]
                    simp [List.append_assoc]
            · rw [if_neg hs3] at h
              simp at h

theorem readDouble_prefix (input raw rest : List Byte)
    (h : readDouble input = some (raw, rest)) : raw ++ rest = input := by
  cases input with
  | nil => simp [readDouble] at h
  | cons l r =>
    simp only [readDouble] at h
    cases ht : takeExact l r with
    | none => rw [ht] at h; simp at h
    | some q =>
      obtain ⟨d, r2⟩ := q
      rw [ht] at h
      dsimp only at h
      simp only [Option.some.injEq, Prod.mk.injEq] at h
      obtain ⟨h2, h3⟩ := h
      subst h2; subst h3
      obtain ⟨e1, -⟩ := takeExact_eq _ _ _ _ ht
      rw [← e1]
      simp

theorem readStringsN_prefix (lzf : List Byte → Nat → List Byte) :
    ∀ (n : Nat) (input raw rest : List Byte),
      readStringsN lzf n input = some (raw, rest) → raw ++ rest = input := by
  intro n
  induction n with
  | zero =>
    intro input raw rest h
    simp only [readStringsN, Option.some.injEq, Prod.mk.injEq] at h
    obtain ⟨h1, h2⟩ := h
    subst h1; subst h2
    rfl
  | succ n ih =>
    intro input raw rest h
    simp only [readStringsN] at h
    cases hs : readStringEnc lzf input with
    | none => rw [hs] at h; simp at h
    | some p =>
      obtain ⟨dv, raw1, r1⟩ := p
      rw [hs] at h
      dsimp only at h
      cases hr : readStringsN lzf n r1 with
      | none => rw [hr] at h; simp at h
      | some q =>
        obtain ⟨raws, r2⟩ := q
        rw [hr] at h
        dsimp only at h
        simp only [Option.some.injEq, Prod.mk.injEq] at h
        obtain ⟨h1, h2⟩ := h
        subst h1; subst h2
        rw [← readStringEnc_prefix _ _ _ _ _ hs, ← ih _ _ _ hr]
        simp [List.append_assoc]

theorem readZSetN_prefix (lzf : List Byte → Nat → List Byte) :
    ∀ (n : Nat) (input raw rest : List Byte),
      readZSetN lzf n input = some (raw, rest) → raw ++ rest = input := by
  intro n
  induction n with
  | zero =>
    intro input raw rest h
    simp only [readZSetN, Option.some.injEq, Prod.mk.injEq] at h
    obtain ⟨h1, h2⟩ := h
    subst h1; subst h2
    rfl
  | succ n ih =>
    intro input raw rest h
    simp only [readZSetN] at h
    cases hs : readStringEnc lzf input with
    | none => rw [hs] at h; simp at h
    | some p =>
      obtain ⟨dv, rawm, r1⟩ := p
      rw [hs] at h
      dsimp only at h
      cases hd : readDouble r1 with
      | none => rw [hd] at h; simp at h
      | some q =>
        obtain ⟨rawd, r2⟩ := q
        rw [hd] at h
        dsimp only at h
        cases hr : readZSetN lzf n r2 with
        | none => rw [hr] at h; simp at h
        | some q2 =>
          obtain ⟨raws, r3⟩ := q2
          rw [hr] at h
          dsimp only at h
          simp only [Option.some.injEq, Prod.mk.injEq] at h
          obtain ⟨h1, h2⟩ := h
          subst h1; subst h2
          rw [← readStringEnc_prefix _ _ _ _ _ hs, ← readDouble_prefix _ _ _ hd,
            ← ih _ _ _ hr]
          simp [List.append_assoc]

theorem readValue_prefix (lzf : List Byte → Nat → List Byte) (op : Nat)
    (input raw rest : List Byte) (h : readValue lzf op input = some (raw, rest)) :
    raw ++ rest = input := by
  unfold readValue at h
  by_cases h0 : op = 0
  · rw [if_pos h0] at h
    cases hs : readStringEnc lzf input with
    | none => rw [hs] at h; simp at h
    | some p =>
      obtain ⟨dv, raw1, r1⟩ := p
      rw [hs] at h
      dsimp only at h
      simp only [Option.some.injEq, Prod.mk.injEq] at h
      obtain ⟨h1, h2⟩ := h
      subst h1; subst h2
      exact readStringEnc_prefix _ _ _ _ _ hs
  · rw [if_neg h0] at h
    by_cases h12 : op = 1 ∨ op = 2
    · rw [if_pos h12] at h
      cases hlo : readLengthOnly input with
      | none => rw [hlo] at h; simp at h
      | some p =>
        obtain ⟨n, raw0, r1⟩ := p
        rw [hlo] at h
        dsimp only at h
        cases hr : readStringsN lzf n r1 with
        | none => rw [hr] at h; simp at h
        | some q =>
          obtain ⟨raws, r2⟩ := q
          rw [hr] at h
          dsimp only at h
          simp only [Option.some.injEq, Prod.mk.injEq] at h
          obtain ⟨h1, h2⟩ := h
          subst h1; subst h2
          rw [← readLengthOnly_prefix _ _ _ _ hlo, ← readStringsN_prefix _ _ _ _ _ hr]
          simp [List.append_assoc]
    · rw [if_neg h12] at h
      by_cases h3 : op = 3
      · rw [if_pos h3] at h
        cases hlo : readLengthOnly input with
        | none => rw [hlo] at h; simp at h
        | some p =>
          obtain ⟨n, raw0, r1⟩ := p
          rw [hlo] at h
          dsimp only at h
          cases hr : readZSetN lzf n r1 with
          | none => rw [hr] at h; simp at h
          | some q =>
            obtain ⟨raws, r2⟩ := q
            rw [hr] at h
            dsimp only at h
            simp only [Option.some.injEq, Prod.mk.injEq] at h
            obtain ⟨h1, h2⟩ := h
            subst h1; subst h2
            rw [← readLengthOnly_prefix _ _ _ _ hlo, ← readZSetN_prefix _ _ _ _ _ hr]
            simp [List.append_assoc]
      · rw [if_neg h3] at h
        by_cases h4 : op = 4
        · rw [if_pos h4] at h
          cases hlo : readLengthOnly input with
          | none => rw [hlo] at h; simp at h
          | some p =>
            obtain ⟨n, raw0, r1⟩ := p
            rw [hlo] at h
            dsimp only at h
            cases hr : readStringsN lzf (2 * n) r1 with
            | none => rw [hr] at h; simp at h
            | some q =>
              obtain ⟨raws, r2⟩ := q
              rw [hr] at h
              dsimp only at h
              simp only [Option.some.injEq, Prod.mk.injEq] at h
              obtain ⟨h1, h2⟩ := h
              subst h1; subst h2
              rw [← readLengthOnly_prefix _ _ _ _ hlo, ← readStringsN_prefix _ _ _ _ _ hr]
              simp [List.append_assoc]
        · rw [if_neg h4] at h
          by_cases h9 : op = 9 ∨ op = 10 ∨ op = 11 ∨ op = 12 ∨ op = 13
          · rw [if_pos h9] at h
            cases hs : readStringEnc lzf input with
            | none => rw [hs] at h; simp at h
            | some p =>
              obtain ⟨dv, raw1, r1⟩ := p
              rw [hs] at h
              dsimp only at h
              simp only [Option.some.injEq, Prod.mk.injEq] at h
              obtain ⟨h1, h2⟩ := h
              subst h1; subst h2
              exact readStringEnc_prefix _ _ _ _ _ hs
          · rw [if_neg h9] at h
            by_cases h14 : op = 14
            · rw [if_pos h14] at h
              cases hlo : readLengthOnly input with
              | none => rw [hlo] at h; simp at h
              | some p =>
                obtain ⟨n, raw0, r1⟩ := p
                rw [hlo] at h
                dsimp only at h
                cases hr : readStringsN lzf n r1 with
                | none => rw [hr] at h; simp at h
                | some q =>
                  obtain ⟨raws, r2⟩ := q
                  rw [hr] at h
                  dsimp only at h
                  simp only [Option.some.injEq, Prod.mk.injEq] at h
                  obtain ⟨h1, h2⟩ := h
                  subst h1; subst h2
                  rw [← readLengthOnly_prefix _ _ _ _ hlo,
                    ← readStringsN_prefix _ _ _ _ _ hr]
                  simp [List.append_assoc]
            · rw [if_neg h14] at h
              simp at h

theorem filterRecords_suffix (m : List Byte → Bool) (lzf : List Byte → Nat → List Byte) :
    ∀ (fuel : Nat) (pending : Option (List Byte)) (input out fin : List Byte),
      filterRecords m lzf fuel pending input = some (out, fin) → fin.IsSuffix input := by
  intro fuel
  induction fuel with
  | zero => intro pending input out fin h; simp [filterRecords] at h
  | succ fuel ih =>
    intro pending input out fin h
    cases input with
    | nil => simp [filterRecords] at h
    | cons op tl =>
      simp only [filterRecords] at h
      have htl : tl.IsSuffix (op :: tl) := ⟨[op], rfl⟩
      by_cases c250 : op = 250
      · rw [if_pos c250] at h
        cases hs1 : readStringEnc lzf tl with
        | none => rw [hs1] at h; simp at h
        | some p1 =>
          obtain ⟨d1, raw1, r1⟩ := p1
          rw [hs1] at h
          dsimp only at h
          cases hs2 : readStringEnc lzf r1 with
          | none => rw [hs2] at h; simp at h
          | some p2 =>
            obtain ⟨d2, raw2, r2⟩ := p2
            rw [hs2] at h
            dsimp only at h
            cases hf : filterRecords m lzf fuel pending r2 with
            | none => rw [hf] at h; simp at h
            | some q =>
              obtain ⟨out2, fin2⟩ := q
              rw [hf] at h
              dsimp only at h
              simp only [Option.some.injEq, Prod.mk.injEq] at h
              obtain ⟨-, h2⟩ := h
              subst h2
              have s1 : r1.IsSuffix tl := ⟨raw1, readStringEnc_prefix _ _ _ _ _ hs1⟩
              have s2 : r2.IsSuffix r1 := ⟨raw2, readStringEnc_prefix _ _ _ _ _ hs2⟩
              exact (ih _ _ _ _ hf).trans ((s2.trans s1).trans htl)
      · rw [if_neg c250] at h
        by_cases c251 : op = 251
        · rw [if_pos c251] at h
          by_cases hp : pending.isSome = true
          · rw [if_pos hp] at h; simp at h
          · rw [if_neg hp] at h
            cases hl1 : readLengthOnly tl with
            | none => rw [hl1] at h; simp at h
            | some p1 =>
              obtain ⟨n1, raw1, r1⟩ := p1
              rw [hl1] at h
              dsimp only at h
              cases hl2 : readLengthOnly r1 with
              | none => rw [hl2] at h; simp at h
              | some p2 =>
                obtain ⟨n2, raw2, r2⟩ := p2
                rw [hl2] at h
                dsimp only at h
                cases hf : filterRecords m lzf fuel none r2 with
                | none => rw [hf] at h; simp at h
                | some q =>
                  obtain ⟨out2, fin2⟩ := q
                  rw [hf] at h
                  dsimp only at h
                  simp only [Option.some.injEq, Prod.mk.injEq] at h
                  obtain ⟨-, h2⟩ := h
                  subst h2
                  have s1 : r1.IsSuffix tl := ⟨raw1, readLengthOnly_prefix _ _ _ _ hl1⟩
                  have s2 : r2.IsSuffix r1 := ⟨raw2, readLengthOnly_prefix _ _ _ _ hl2⟩
                  exact (ih _ _ _ _ hf).trans ((s2.trans s1).trans htl)
        · rw [if_neg c251] at h
          by_cases c252 : op = 252
          · rw [if_pos c252] at h
            by_cases hp : pending.isSome = true
            · rw [if_pos hp] at h; simp at h
            · rw [if_neg hp] at h
              cases ht : takeExact 8 tl with
              | none => rw [ht] at h; simp at h
              | some q =>
                obtain ⟨e, r⟩ := q
                rw [ht] at h
                dsimp only at h
                have s1 : r.IsSuffix tl := ⟨e, (takeExact_eq _ _ _ _ ht).1⟩
                exact (ih _ _ _ _ h).trans (s1.trans htl)
          · rw [if_neg c252] at h
            by_cases c253 : op = 253
            · rw [if_pos c253] at h
              by_cases hp : pending.isSome = true
              · rw [if_pos hp] at h; simp at h
              · rw [if_neg hp] at h
                cases ht : takeExact 4 tl with
                | none => rw [ht] at h; simp at h
                | some q =>
                  obtain ⟨e, r⟩ := q
                  rw [ht] at h
                  dsimp only at h
                  have s1 : r.IsSuffix tl := ⟨e, (takeExact_eq _ _ _ _ ht).1⟩
                  exact (ih _ _ _ _ h).trans (s1.trans htl)
            · rw [if_neg c253] at h
              by_cases c254 : op = 254
              · rw [if_pos c254] at h
                by_cases hp : pending.isSome = true
                · rw [if_pos hp] at h; simp at h
                · rw [if_neg hp] at h
                  cases hl1 : readLengthOnly tl with
                  | none => rw [hl1] at h; simp at h
                  | some p1 =>
                    obtain ⟨n1, raw1, r1⟩ := p1
                    rw [hl1] at h
                    dsimp only at h
                    cases hf : filterRecords m lzf fuel none r1 with
                    | none => rw [hf] at h; simp at h
                    | some q =>
                      obtain ⟨out2, fin2⟩ := q
                      rw [hf] at h
                      dsimp only at h
                      simp only [Option.some.injEq, Prod.mk.injEq] at h
                      obtain ⟨-, h2⟩ := h
                      subst h2
                      have s1 : r1.IsSuffix tl := ⟨raw1, readLengthOnly_prefix _ _ _ _ hl1⟩
                      exact (ih _ _ _ _ hf).trans (s1.trans htl)
              · rw [if_neg c254] at h
                by_cases c255 : op = 255
                · rw [if_pos c255] at h
                  by_cases hp : pending.isSome = true
                  · rw [if_pos hp] at h; simp at h
                  · rw [if_neg hp] at h
                    cases ht : takeExact 8 tl with
                    | none => rw [ht] at h; simp at h
                    | some q =>
                      obtain ⟨crc, fin2⟩ := q
                      rw [ht] at h
                      dsimp only at h
                      simp only [Option.some.injEq, Prod.mk.injEq] at h
                      obtain ⟨-, h2⟩ := h
                      subst h2
                      have s1 : fin2.IsSuffix tl := ⟨crc, (takeExact_eq _ _ _ _ ht).1⟩
                      exact s1.trans htl
                · rw [if_neg c255] at h
                  by_cases cval : isValueType op = true
                  · rw [if_pos cval] at h
                    cases hs1 : readStringEnc lzf tl with
                    | none => rw [hs1] at h; simp at h
                    | some p1 =>
                      obtain ⟨key, keyRaw, r1⟩ := p1
                      rw [hs1] at h
                      dsimp only at h
                      cases hv : readValue lzf op r1 with
                      | none => rw [hv] at h; simp at h
                      | some p2 =>
                        obtain ⟨valRaw, r2⟩ := p2
                        rw [hv] at h
                        dsimp only at h
                        cases hf : filterRecords m lzf fuel none r2 with
                        | none => rw [hf] at h; simp at h
                        | some q =>
                          obtain ⟨out2, fin2⟩ := q
                          rw [hf] at h
                          dsimp only at h
                          simp only [Option.some.injEq, Prod.mk.injEq] at h
                          obtain ⟨-, h2⟩ := h
                          subst h2
                          have s1 : r1.IsSuffix tl :=
                            ⟨keyRaw, readStringEnc_prefix _ _ _ _ _ hs1⟩
                          have s2 : r2.IsSuffix r1 :=
                            ⟨valRaw, readValue_prefix _ _ _ _ _ hv⟩
                          exact (ih _ _ _ _ hf).trans ((s2.trans s1).trans htl)
                  · rw [if_neg cval] at h
                    simp at h

theorem FilterRDB_consumes (m : List Byte → Bool) (lzf : List Byte → Nat → List Byte)
    (n : Int) (input out fin : List Byte) (h : FilterRDB m lzf n input = some (out, fin)) :
    ((input.length - fin.length : Nat) : Int) = n + 8 ∧ fin = input.drop (n + 8).toNat := by
  unfold FilterRDB at h
  cases ht : takeExact 9 input with
  | none => rw [ht] at h; simp at h
  | some p =>
    obtain ⟨hdr, rest⟩ := p
    rw [ht] at h
    dsimp only at h
    by_cases hm : hdr.take 5 = strBytes "REDIS"
    · rw [if_pos hm] at h
      cases hf : filterRecords m lzf rest.length none rest with
      | none => rw [hf] at h; simp at h
      | some q =>
        obtain ⟨o, f⟩ := q
        rw [hf] at h
        dsimp only at h
        by_cases hg : ((input.length - f.length : Nat) : Int) = n + 8
        · rw [if_pos hg] at h
          simp only [Option.some.injEq, Prod.mk.injEq] at h
          obtain ⟨-, h2⟩ := h
          subst h2
          refine ⟨hg, ?_⟩
          have hsr : f.IsSuffix rest := filterRecords_suffix m lzf _ _ _ _ _ hf
          have hri : rest.IsSuffix input := ⟨hdr, (takeExact_eq _ _ _ _ ht).1⟩
          obtain ⟨t, hts⟩ := hsr.trans hri
          have hlen : t.length + f.length = input.length := by
            rw [← hts]
            simp
          have htn : t.length = (n + 8).toNat := by omega
          rw [← hts, ← htn, List.drop_left]
        · rw [if_neg hg] at h
          simp at h
    · rw [if_neg hm] at h
      simp at h

/-- C7. When the master reader decodes a bulk header with positive
announced length, it forwards the raw `$N` line to the slave queue and
invokes the snapshot filter with that length; whenever the filter
succeeds it has consumed exactly `N + 8` bytes (payload plus the 8-byte
CRC trailer), leaving the reader positioned at the next RESP frame. -/
theorem c7_length_accounting (m : List Byte → Bool) (lzf : List Byte → Nat → List Byte)
    (input : List Byte) (c : RedisCommand) (rest : List Byte)
    (hdec : readRedisCommand input = .ok c rest) (hcmd : c.command = none)
    (hrep : c.reply = []) (hpos : 0 < c.bulkSize) :
    masterStep m c = ([c.raw], some c.bulkSize) ∧
    ∀ rdbIn out fin, FilterRDB m lzf c.bulkSize rdbIn = some (out, fin) →
      ((rdbIn.length - fin.length : Nat) : Int) = c.bulkSize + 8 ∧
      fin = rdbIn.drop (c.bulkSize + 8).toNat := by
  constructor
  · unfold masterStep
    rw [if_neg, if_neg, if_pos hpos]
    · simp only [argvOf, hcmd, Option.getD_none]
      intro hcontra
      simp at hcontra
    · rw [hrep]
      rintro (hr | ⟨-, hb⟩)
      · exact hr rfl
      · omega
  · intro rdbIn out fin hf
    exact FilterRDB_consumes m lzf c.bulkSize rdbIn out fin hf

/-- C7 witness: the decoded `$10` header invokes the filter with
bulk size 10, and on a 10-byte snapshot payload plus CRC the filter
consumes all 18 bytes. -/
theorem c7_length_accounting_witness :
    masterStep (fun _ => true) { raw := strBytes "$10\r\n", bulkSize := 10 } =
      ([strBytes "$10\r\n"], some 10) ∧
    ([] : List Byte) = miniRdb.drop ((10 : Int) + 8).toNat :=
  ⟨(c7_length_accounting (fun _ => true) (fun c _ => c) (strBytes "$10\r\n")
      { raw := strBytes "$10\r\n", bulkSize := 10 } []
      (by decide) (by decide) (by decide) (by decide)).1,
   ((c7_length_accounting (fun _ => true) (fun c _ => c) (strBytes "$10\r\n")
      { raw := strBytes "$10\r\n", bulkSize := 10 } []
      (by decide) (by decide) (by decide) (by decide)).2 miniRdb miniRdb []
      (by decide)).2⟩

/-!
Part 7: round-trip lemmas, the filter on encoded snapshots.
-/

theorem takeExact_append (s t : List Byte) : takeExact s.length (s ++ t) = some (s, t) := by
  unfold takeExact
  rw [if_pos (by simp)]
  rw [List.take_left, List.drop_left]

theorem readLength_encLen (n : Nat) (t : List Byte) (h : n < 2 ^ 64) :
    readLength (encLen n ++ t) = some (.len n, encLen n, t) := by
  unfold encLen
  by_cases h1 : n < 64
  · rw [if_pos h1]
    simp only [List.singleton_append, readLength]
    rw [if_pos h1]
  · rw [if_neg h1]
    by_cases h2 : n < 16384
    · rw [if_pos h2]
      have e1 : ¬(64 + n / 256 < 64) := by omega
      have e2 : 64 + n / 256 < 128 := by omega
      simp only [List.cons_append, List.nil_append, readLength, if_neg e1, if_pos e2]
      simp only [Option.some.injEq, Prod.mk.injEq, LenTok.len.injEq]
      refine ⟨?_, trivial⟩
      omega
    · rw [if_neg h2]
      by_cases h3 : n < 2 ^ 32
      · rw [if_pos h3]
        have e1 : ¬((128 : Nat) < 64) := by norm_num
        have e2 : ¬((128 : Nat) < 128) := by norm_num
        have e3 : (128 : Nat) = 128 := rfl
        simp only [be32, List.cons_append, List.nil_append, readLength, if_neg e1,
          if_neg e2, if_pos e3, if_true]
        simp only [Option.some.injEq, Prod.mk.injEq, LenTok.len.injEq]
        refine ⟨?_, trivial⟩
        omega
      · rw [if_neg h3]
        have e1 : ¬((129 : Nat) < 64) := by norm_num
        have e2 : ¬((129 : Nat) < 128) := by norm_num
        have e3 : ¬((129 : Nat) = 128) := by norm_num
        have e4 : (129 : Nat) = 129 := rfl
        simp only [be64, List.cons_append, List.nil_append, readLength, if_neg e1,
          if_neg e2, if_neg e3, if_pos e4, if_true]
        simp only [Option.some.injEq, Prod.mk.injEq, LenTok.len.injEq]
        refine ⟨?_, trivial⟩
        omega

theorem readLengthOnly_encLen (n : Nat) (t : List Byte) (h : n < 2 ^ 64) :
    readLengthOnly (encLen n ++ t) = some (n, encLen n, t) := by
  unfold readLengthOnly
  rw [readLength_encLen n t h]

theorem readStringEnc_encStr (lzf : List Byte → Nat → List Byte) (s t : List Byte)
    (h : s.length < 2 ^ 64) :
    readStringEnc lzf (encStr s ++ t) = some (s, encStr s, t) := by
  unfold readStringEnc encStr
  rw [List.append_assoc, readLength_encLen s.length (s ++ t) h]
  dsimp only
  rw [takeExact_append]

theorem readDouble_encDouble (d t : List Byte) :
    readDouble (encDouble d ++ t) = some (encDouble d, t) := by
  unfold readDouble encDouble
  simp only [List.cons_append]
  rw [takeExact_append]

theorem readStringsN_enc (lzf : List Byte → Nat → List Byte) (xs : List (List Byte))
    (t : List Byte) (h : ∀ x ∈ xs, x.length < 2 ^ 64) :
    readStringsN lzf xs.length (xs.flatMap encStr ++ t) =
      some (xs.flatMap encStr, t) := by
  induction xs with
  | nil => simp [readStringsN]
  | cons x xs ih =>
    simp only [List.flatMap_cons, List.length_cons, readStringsN, List.append_assoc]
    rw [readStringEnc_encStr lzf x _ (h x (by simp))]
    dsimp only
    rw [ih (fun y hy => h y (by simp [hy]))]

theorem readZSetN_enc (lzf : List Byte → Nat → List Byte)
    (xs : List (List Byte × List Byte)) (t : List Byte)
    (h : ∀ p ∈ xs, p.1.length < 2 ^ 64) :
    readZSetN lzf xs.length (xs.flatMap (fun p => encStr p.1 ++ encDouble p.2) ++ t) =
      some (xs.flatMap (fun p => encStr p.1 ++ encDouble p.2), t) := by
  induction xs with
  | nil => simp [readZSetN]
  | cons p xs ih =>
    simp only [List.flatMap_cons, List.length_cons, readZSetN, List.append_assoc]
    rw [readStringEnc_encStr lzf p.1 _ (h p (by simp))]
    dsimp only
    rw [readDouble_encDouble]
    dsimp only
    rw [ih (fun q hq => h q (by simp [hq]))]

theorem readStringsN_pairs (lzf : List Byte → Nat → List Byte)
    (xs : List (List Byte × List Byte)) (t : List Byte)
    (h : ∀ p ∈ xs, p.1.length < 2 ^ 64 ∧ p.2.length < 2 ^ 64) :
    readStringsN lzf (2 * xs.length) (xs.flatMap (fun p => encStr p.1 ++ encStr p.2) ++ t) =
      some (xs.flatMap (fun p => encStr p.1 ++ encStr p.2), t) := by
  induction xs with
  | nil => simp [readStringsN]
  | cons p xs ih =>
    rw [show 2 * (p :: xs).length = (2 * xs.length + 1) + 1 from by simp; ring]
    simp only [List.flatMap_cons, readStringsN, List.append_assoc]
    rw [readStringEnc_encStr lzf p.1 _ (h p (by simp)).1]
    dsimp only
    rw [readStringEnc_encStr lzf p.2 _ (h p (by simp)).2]
    dsimp only
    rw [ih (fun q hq => h q (by simp [hq]))]

theorem SnapValue.opcode_le (v : SnapValue) : v.opcode ≤ 14 := by
  cases v <;> simp [SnapValue.opcode]

theorem isValueType_opcode (v : SnapValue) : isValueType v.opcode = true := by
  cases v <;> rfl

theorem readValue_encode (lzf : List Byte → Nat → List Byte) (v : SnapValue)
    (t : List Byte) (hwf : v.WF = true) :
    readValue lzf v.opcode (v.encode ++ t) = some (v.encode, t) := by
  cases v with
  | str s =>
    simp only [SnapValue.WF, decide_eq_true_eq] at hwf
    simp only [SnapValue.opcode, SnapValue.encode]
    unfold readValue
    rw [if_pos (show (0 : Nat) = 0 from rfl), readStringEnc_encStr lzf s t hwf]
  | list xs =>
    simp only [SnapValue.WF, Bool.and_eq_true, decide_eq_true_eq, List.all_eq_true] at hwf
    simp only [SnapValue.opcode, SnapValue.encode]
    unfold readValue
    rw [if_neg (show ¬((1 : Nat) = 0) from by decide),
      if_pos (show (1 : Nat) = 1 ∨ (1 : Nat) = 2 from Or.inl rfl), List.append_assoc,
      readLengthOnly_encLen xs.length _ hwf.1]
    dsimp only
    rw [readStringsN_enc lzf xs t (fun x hx => by simpa using hwf.2 x hx)]
  | set xs =>
    simp only [SnapValue.WF, Bool.and_eq_true, decide_eq_true_eq, List.all_eq_true] at hwf
    simp only [SnapValue.opcode, SnapValue.encode]
    unfold readValue
    rw [if_neg (show ¬((2 : Nat) = 0) from by decide),
      if_pos (show (2 : Nat) = 1 ∨ (2 : Nat) = 2 from Or.inr rfl), List.append_assoc,
      readLengthOnly_encLen xs.length _ hwf.1]
    dsimp only
    rw [readStringsN_enc lzf xs t (fun x hx => by simpa using hwf.2 x hx)]
  | zset xs =>
    simp only [SnapValue.WF, Bool.and_eq_true, decide_eq_true_eq, List.all_eq_true] at hwf
    simp only [SnapValue.opcode, SnapValue.encode]
    unfold readValue
    rw [if_neg (show ¬((3 : Nat) = 0) from by decide),
      if_neg (show ¬((3 : Nat) = 1 ∨ (3 : Nat) = 2) from by decide),
      if_pos (show (3 : Nat) = 3 from rfl), List.append_assoc,
      readLengthOnly_encLen xs.length _ hwf.1]
    dsimp only
    rw [readZSetN_enc lzf xs t (fun p hp => by
      have hq := hwf.2 p hp
      simp only [Bool.and_eq_true, decide_eq_true_eq] at hq
      exact hq.1)]
  | hash xs =>
    simp only [SnapValue.WF, Bool.and_eq_true, decide_eq_true_eq, List.all_eq_true] at hwf
    simp only [SnapValue.opcode, SnapValue.encode]
    unfold readValue
    rw [if_neg (show ¬((4 : Nat) = 0) from by decide),
      if_neg (show ¬((4 : Nat) = 1 ∨ (4 : Nat) = 2) from by decide),
      if_neg (show ¬((4 : Nat) = 3) from by decide),
      if_pos (show (4 : Nat) = 4 from rfl), List.append_assoc,
      readLengthOnly_encLen xs.length _ hwf.1]
    dsimp only
    rw [readStringsN_pairs lzf xs t (fun p hp => by
      have hq := hwf.2 p hp
      simp only [Bool.and_eq_true, decide_eq_true_eq] at hq
      exact hq)]
  | zipmap b =>
    simp only [SnapValue.WF, decide_eq_true_eq] at hwf
    simp only [SnapValue.opcode, SnapValue.encode]
    unfold readValue
    rw [if_neg (show ¬((9 : Nat) = 0) from by decide),
      if_neg (show ¬((9 : Nat) = 1 ∨ (9 : Nat) = 2) from by decide),
      if_neg (show ¬((9 : Nat) = 3) from by decide),
      if_neg (show ¬((9 : Nat) = 4) from by decide),
      if_pos (show (9 : Nat) = 9 ∨ (9 : Nat) = 10 ∨ (9 : Nat) = 11 ∨ (9 : Nat) = 12 ∨
        (9 : Nat) = 13 from Or.inl rfl),
      readStringEnc_encStr lzf b t hwf]
  | ziplist b =>
    simp only [SnapValue.WF, decide_eq_true_eq] at hwf
    simp only [SnapValue.opcode, SnapValue.encode]
    unfold readValue
    rw [if_neg (show ¬((10 : Nat) = 0) from by decide),
      if_neg (show ¬((10 : Nat) = 1 ∨ (10 : Nat) = 2) from by decide),
      if_neg (show ¬((10 : Nat) = 3) from by decide),
      if_neg (show ¬((10 : Nat) = 4) from by decide),
      if_pos (show (10 : Nat) = 9 ∨ (10 : Nat) = 10 ∨ (10 : Nat) = 11 ∨ (10 : Nat) = 12 ∨
        (10 : Nat) = 13 from Or.inr (Or.inl rfl)),
      readStringEnc_encStr lzf b t hwf]
  | intset b =>
    simp only [SnapValue.WF, decide_eq_true_eq] at hwf
    simp only [SnapValue.opcode, SnapValue.encode]
    unfold readValue
    rw [if_neg (show ¬((11 : Nat) = 0) from by decide),
      if_neg (show ¬((11 : Nat) = 1 ∨ (11 : Nat) = 2) from by decide),
      if_neg (show ¬((11 : Nat) = 3) from by decide),
      if_neg (show ¬((11 : Nat) = 4) from by decide),
      if_pos (show (11 : Nat) = 9 ∨ (11 : Nat) = 10 ∨ (11 : Nat) = 11 ∨ (11 : Nat) = 12 ∨
        (11 : Nat) = 13 from Or.inr (Or.inr (Or.inl rfl))),
      readStringEnc_encStr lzf b t hwf]
  | zsetZiplist b =>
    simp only [SnapValue.WF, decide_eq_true_eq] at hwf
    simp only [SnapValue.opcode, SnapValue.encode]
    unfold readValue
    rw [if_neg (show ¬((12 : Nat) = 0) from by decide),
      if_neg (show ¬((12 : Nat) = 1 ∨ (12 : Nat) = 2) from by decide),
      if_neg (show ¬((12 : Nat) = 3) from by decide),
      if_neg (show ¬((12 : Nat) = 4) from by decide),
      if_pos (show (12 : Nat) = 9 ∨ (12 : Nat) = 10 ∨ (12 : Nat) = 11 ∨ (12 : Nat) = 12 ∨
        (12 : Nat) = 13 from Or.inr (Or.inr (Or.inr (Or.inl rfl)))),
      readStringEnc_encStr lzf b t hwf]
  | hashZiplist b =>
    simp only [SnapValue.WF, decide_eq_true_eq] at hwf
    simp only [SnapValue.opcode, SnapValue.encode]
    unfold readValue
    rw [if_neg (show ¬((13 : Nat) = 0) from by decide),
      if_neg (show ¬((13 : Nat) = 1 ∨ (13 : Nat) = 2) from by decide),
      if_neg (show ¬((13 : Nat) = 3) from by decide),
      if_neg (show ¬((13 : Nat) = 4) from by decide),
      if_pos (show (13 : Nat) = 9 ∨ (13 : Nat) = 10 ∨ (13 : Nat) = 11 ∨ (13 : Nat) = 12 ∨
        (13 : Nat) = 13 from Or.inr (Or.inr (Or.inr (Or.inr rfl)))),
      readStringEnc_encStr lzf b t hwf]
  | quicklist xs =>
    simp only [SnapValue.WF, Bool.and_eq_true, decide_eq_true_eq, List.all_eq_true] at hwf
    simp only [SnapValue.opcode, SnapValue.encode]
    unfold readValue
    rw [if_neg (show ¬((14 : Nat) = 0) from by decide),
      if_neg (show ¬((14 : Nat) = 1 ∨ (14 : Nat) = 2) from by decide),
      if_neg (show ¬((14 : Nat) = 3) from by decide),
      if_neg (show ¬((14 : Nat) = 4) from by decide),
      if_neg (show ¬((14 : Nat) = 9 ∨ (14 : Nat) = 10 ∨ (14 : Nat) = 11 ∨ (14 : Nat) = 12 ∨
        (14 : Nat) = 13) from by decide),
      if_pos (show (14 : Nat) = 14 from rfl), List.append_assoc,
      readLengthOnly_encLen xs.length _ hwf.1]
    dsimp only
    rw [readStringsN_enc lzf xs t (fun x hx => by simpa using hwf.2 x hx)]

theorem filterRecords_body (m : List Byte → Bool) (lzf : List Byte → Nat → List Byte)
    (key : List Byte) (v : SnapValue) (pending : Option (List Byte))
    (rest' out tail : List Byte) (f : Nat)
    (hkey : key.length < 2 ^ 64) (hv : v.WF = true)
    (hcont : filterRecords m lzf f none rest' = some (out, tail)) :
    filterRecords m lzf (f + 1) pending
      (v.opcode :: (encStr key ++ (v.encode ++ rest'))) =
      some ((if m key then pending.getD [] ++ v.opcode :: (encStr key ++ v.encode)
        else []) ++ out, tail) := by
  have hle := v.opcode_le
  simp only [filterRecords]
  rw [if_neg (show ¬(v.opcode = 250) from by omega),
    if_neg (show ¬(v.opcode = 251) from by omega),
    if_neg (show ¬(v.opcode = 252) from by omega),
    if_neg (show ¬(v.opcode = 253) from by omega),
    if_neg (show ¬(v.opcode = 254) from by omega),
    if_neg (show ¬(v.opcode = 255) from by omega),
    if_pos (isValueType_opcode v),
    readStringEnc_encStr lzf key _ hkey]
  dsimp only
  rw [readValue_encode lzf v _ hv]
  dsimp only
  rw [hcont]

theorem filterRecords_encode (m : List Byte → Bool) (lzf : List Byte → Nat → List Byte)
    (rs : List SnapRecord) : ∀ (fuel : Nat) (crc tail : List Byte),
    rs.all SnapRecord.WF = true → crc.length = 8 →
    (rs.flatMap SnapRecord.encode).length < fuel →
    filterRecords m lzf fuel none
      (rs.flatMap SnapRecord.encode ++ 255 :: (crc ++ tail)) =
      some (rs.flatMap (keepRecord m) ++ 255 :: crc, tail) := by
  induction rs with
  | nil =>
    intro fuel crc tail hwf hcrc hfuel
    obtain ⟨f, rfl⟩ : ∃ f, fuel = f + 1 := ⟨fuel - 1, by omega⟩
    simp only [List.flatMap_nil, List.nil_append, filterRecords]
    rw [if_neg (show ¬((255 : Nat) = 250) from by decide),
      if_neg (show ¬((255 : Nat) = 251) from by decide),
      if_neg (show ¬((255 : Nat) = 252) from by decide),
      if_neg (show ¬((255 : Nat) = 253) from by decide),
      if_neg (show ¬((255 : Nat) = 254) from by decide),
      if_pos trivial,
      if_neg (show ¬(Option.isSome (none : Option (List Byte)) = true) from by decide),
      show (8 : Nat) = crc.length from hcrc.symm, takeExact_append]
  | cons r rs ih =>
    intro fuel crc tail hwf hcrc hfuel
    simp only [List.all_cons, Bool.and_eq_true] at hwf
    obtain ⟨hwr, hwrs⟩ := hwf
    simp only [List.flatMap_cons, List.append_assoc] at hfuel ⊢
    rw [List.length_append] at hfuel
    cases r with
    | aux k v =>
      simp only [SnapRecord.WF, Bool.and_eq_true, decide_eq_true_eq] at hwr
      have h1 : 1 ≤ (SnapRecord.encode (SnapRecord.aux k v)).length := by
        simp [SnapRecord.encode]
      obtain ⟨f, rfl⟩ : ∃ f, fuel = f + 1 := ⟨fuel - 1, by omega⟩
      have hrec : (rs.flatMap SnapRecord.encode).length < f := by omega
      simp only [SnapRecord.encode, List.cons_append, List.append_assoc, filterRecords]
      rw [if_pos trivial]
      simp only [List.append_eq, List.append_assoc]
      rw [readStringEnc_encStr lzf k _ hwr.1]
      dsimp only
      rw [readStringEnc_encStr lzf v _ hwr.2]
      dsimp only
      rw [ih f crc tail hwrs hcrc hrec]
      dsimp only
      simp [keepRecord, SnapRecord.encode, List.append_assoc]
    | resizeDb a b =>
      simp only [SnapRecord.WF, Bool.and_eq_true, decide_eq_true_eq] at hwr
      have h1 : 1 ≤ (SnapRecord.encode (SnapRecord.resizeDb a b)).length := by
        simp [SnapRecord.encode]
      obtain ⟨f, rfl⟩ : ∃ f, fuel = f + 1 := ⟨fuel - 1, by omega⟩
      have hrec : (rs.flatMap SnapRecord.encode).length < f := by omega
      simp only [SnapRecord.encode, List.cons_append, List.append_assoc, filterRecords]
      rw [if_neg (show ¬((251 : Nat) = 250) from by decide),
        if_pos trivial,
        if_neg (show ¬(Option.isSome (none : Option (List Byte)) = true) from by decide)]
      simp only [List.append_eq, List.append_assoc]
      rw [readLengthOnly_encLen a _ hwr.1]
      dsimp only
      rw [readLengthOnly_encLen b _ hwr.2]
      dsimp only
      rw [ih f crc tail hwrs hcrc hrec]
      dsimp only
      simp [keepRecord, SnapRecord.encode, List.append_assoc]
    | selectDb n =>
      simp only [SnapRecord.WF, decide_eq_true_eq] at hwr
      have h1 : 1 ≤ (SnapRecord.encode (SnapRecord.selectDb n)).length := by
        simp [SnapRecord.encode]
      obtain ⟨f, rfl⟩ : ∃ f, fuel = f + 1 := ⟨fuel - 1, by omega⟩
      have hrec : (rs.flatMap SnapRecord.encode).length < f := by omega
      simp only [SnapRecord.encode, List.cons_append, List.append_assoc, filterRecords]
      rw [if_neg (show ¬((254 : Nat) = 250) from by decide),
        if_neg (show ¬((254 : Nat) = 251) from by decide),
        if_neg (show ¬((254 : Nat) = 252) from by decide),
        if_neg (show ¬((254 : Nat) = 253) from by decide),
        if_pos trivial,
        if_neg (show ¬(Option.isSome (none : Option (List Byte)) = true) from by decide)]
      simp only [List.append_eq, List.append_assoc]
      rw [readLengthOnly_encLen n _ hwr]
      dsimp only
      rw [ih f crc tail hwrs hcrc hrec]
      dsimp only
      simp [keepRecord, SnapRecord.encode, List.append_assoc]
    | entry e =>
      cases hexp : e.expiry with
      | none =>
        simp only [SnapRecord.WF, SnapEntry.WF, hexp, Bool.and_eq_true,
          decide_eq_true_eq] at hwr
        have h1 : 1 ≤ (SnapRecord.encode (SnapRecord.entry e)).length := by
          simp only [SnapRecord.encode, SnapEntry.encode, List.length_append,
            List.length_cons]
          omega
        obtain ⟨f, rfl⟩ : ∃ f, fuel = f + 1 := ⟨fuel - 1, by omega⟩
        have hrec : (rs.flatMap SnapRecord.encode).length < f := by omega
        simp only [SnapRecord.encode, SnapEntry.encode, hexp, encExpiry,
          List.nil_append, List.cons_append, List.append_assoc]
        rw [filterRecords_body m lzf e.key e.value none _ _ _ f
          hwr.1.2 hwr.2 (ih f crc tail hwrs hcrc hrec)]
        simp only [keepRecord, SnapEntry.encode, hexp, encExpiry,
          Option.getD_none, List.nil_append, List.append_assoc]
      | some pe =>
        obtain ⟨isMs, ebytes⟩ := pe
        cases isMs with
        | true =>
          simp only [SnapRecord.WF, SnapEntry.WF, hexp, Bool.and_eq_true,
            decide_eq_true_eq] at hwr
          have h2 : 2 ≤ (SnapRecord.encode (SnapRecord.entry e)).length := by
            simp only [SnapRecord.encode, SnapEntry.encode, hexp, encExpiry,
              List.length_append, List.length_cons]
            omega
          obtain ⟨f, rfl⟩ : ∃ f, fuel = f + 2 := ⟨fuel - 2, by omega⟩
          have hrec : (rs.flatMap SnapRecord.encode).length < f := by omega
          simp only [SnapRecord.encode, SnapEntry.encode, hexp, encExpiry,
            List.cons_append, List.append_assoc]
          show filterRecords m lzf (f + 1 + 1) none _ = _
          simp only [filterRecords]
          rw [if_neg (show ¬((252 : Nat) = 250) from by decide),
            if_neg (show ¬((252 : Nat) = 251) from by decide),
            if_pos trivial,
            if_neg (show ¬(Option.isSome (none : Option (List Byte)) = true) from by decide)]
          try simp only [List.append_eq, List.append_assoc]
          rw [show (8 : Nat) = ebytes.length from hwr.1.1.symm, takeExact_append]
          dsimp only
          rw [filterRecords_body m lzf e.key e.value (some (252 :: ebytes)) _ _ _ f
            hwr.1.2 hwr.2 (ih f crc tail hwrs hcrc hrec)]
          simp only [keepRecord, SnapEntry.encode, hexp, encExpiry,
            Option.getD_some, List.cons_append, List.append_assoc]
        | false =>
          simp only [SnapRecord.WF, SnapEntry.WF, hexp, Bool.and_eq_true,
            decide_eq_true_eq] at hwr
          have h2 : 2 ≤ (SnapRecord.encode (SnapRecord.entry e)).length := by
            simp only [SnapRecord.encode, SnapEntry.encode, hexp, encExpiry,
              List.length_append, List.length_cons]
            omega
          obtain ⟨f, rfl⟩ : ∃ f, fuel = f + 2 := ⟨fuel - 2, by omega⟩
          have hrec : (rs.flatMap SnapRecord.encode).length < f := by omega
          simp only [SnapRecord.encode, SnapEntry.encode, hexp, encExpiry,
            List.cons_append, List.append_assoc]
          show filterRecords m lzf (f + 1 + 1) none _ = _
          simp only [filterRecords]
          rw [if_neg (show ¬((253 : Nat) = 250) from by decide),
            if_neg (show ¬((253 : Nat) = 251) from by decide),
            if_neg (show ¬((253 : Nat) = 252) from by decide),
            if_pos trivial,
            if_neg (show ¬(Option.isSome (none : Option (List Byte)) = true) from by decide)]
          try simp only [List.append_eq, List.append_assoc]
          rw [show (4 : Nat) = ebytes.length from hwr.1.1.symm, takeExact_append]
          dsimp only
          rw [filterRecords_body m lzf e.key e.value (some (253 :: ebytes)) _ _ _ f
            hwr.1.2 hwr.2 (ih f crc tail hwrs hcrc hrec)]
          simp only [keepRecord, SnapEntry.encode, hexp, encExpiry,
            Option.getD_some, List.cons_append, List.append_assoc]

/-- The filter on any encoded well-formed snapshot yields exactly the
structurally filtered snapshot and leaves the trailing bytes unread. -/
theorem FilterRDB_encode (m : List Byte → Bool) (lzf : List Byte → Nat → List Byte)
    (s : Snapshot) (tail : List Byte) (hwf : s.WF = true) :
    FilterRDB m lzf (s.payload.length : Int) (s.encode ++ tail) =
      some (s.filtered m, tail) := by
  have hwfp := hwf
  simp only [Snapshot.WF, Bool.and_eq_true, decide_eq_true_eq] at hwfp
  obtain ⟨⟨hver, hcrc⟩, hrecs⟩ := hwfp
  have hR : (strBytes "REDIS").length = 5 := rfl
  have hshape : s.encode ++ tail =
      (strBytes "REDIS" ++ s.version) ++
        (s.records.flatMap SnapRecord.encode ++ 255 :: (s.crc ++ tail)) := by
    simp [Snapshot.encode, Snapshot.payload, List.append_assoc]
  unfold FilterRDB
  rw [hshape, show (9 : Nat) = (strBytes "REDIS" ++ s.version).length from by
      simp [hR, hver], takeExact_append]
  dsimp only
  rw [if_pos (show (strBytes "REDIS" ++ s.version).take 5 = strBytes "REDIS" from by
      rw [show (5 : Nat) = (strBytes "REDIS").length from rfl, List.take_left])]
  rw [filterRecords_encode m lzf s.records _ s.crc tail hrecs hcrc (by
      simp only [List.length_append, List.length_cons]
      omega)]
  dsimp only
  rw [if_pos (by
      have hnat : ((strBytes "REDIS" ++ s.version) ++
          (s.records.flatMap SnapRecord.encode ++ 255 :: (s.crc ++ tail))).length -
            tail.length = s.payload.length + 8 := by
        simp only [List.length_append, List.length_cons, List.length_singleton,
          List.length_nil, Snapshot.payload, hR, hver, hcrc]
        omega
      rw [hnat]
      push_cast
      ring)]
  simp [Snapshot.filtered, List.append_assoc]

theorem keepRecord_true (r : SnapRecord) : keepRecord (fun _ => true) r = r.encode := by
  cases r <;> simp [keepRecord, SnapRecord.encode]

/-- C2. For every encoded snapshot and every predicate, the filter's
output is the header, the per-record contributions, the eof opcode and the
CRC, where an entry whose key fails the predicate contributes no bytes at
all — its expiry prefix included — and an entry whose key passes
contributes exactly its original bytes (so every entry present in the
output has a matching key). -/
theorem c2_predicate_honesty (m : List Byte → Bool) (lzf : List Byte → Nat → List Byte)
    (s : Snapshot) (tail : List Byte) (hwf : s.WF = true) :
    FilterRDB m lzf (s.payload.length : Int) (s.encode ++ tail) =
      some (strBytes "REDIS" ++ s.version ++ s.records.flatMap (keepRecord m) ++
        [255] ++ s.crc, tail) ∧
    (∀ e : SnapEntry, SnapRecord.entry e ∈ s.records → m e.key = false →
      keepRecord m (.entry e) = []) ∧
    (∀ e : SnapEntry, SnapRecord.entry e ∈ s.records → m e.key = true →
      keepRecord m (.entry e) =
        encExpiry e.expiry ++ e.value.opcode :: (encStr e.key ++ e.value.encode)) := by
  refine ⟨?_, ?_, ?_⟩
  · have h := FilterRDB_encode m lzf s tail hwf
    simpa [Snapshot.filtered, List.append_assoc] using h
  · intro e hmem hm
    simp [keepRecord, hm]
  · intro e hmem hm
    simp [keepRecord, hm, SnapEntry.encode]

/-- C6. Piping an encoded snapshot through the filter with a predicate
that admits every key yields output byte-identical to the input; and for
any predicate the non-entry records (aux, resize hints, db selectors) are
copied verbatim, so the concatenation of header, non-entry records, eof
opcode and CRC is preserved. -/
theorem c6_round_trip (m : List Byte → Bool) (lzf : List Byte → Nat → List Byte)
    (s : Snapshot) (tail : List Byte) (hwf : s.WF = true) :
    FilterRDB (fun _ => true) lzf (s.payload.length : Int) (s.encode ++ tail) =
      some (s.encode, tail) ∧
    FilterRDB m lzf (s.payload.length : Int) (s.encode ++ tail) =
      some (strBytes "REDIS" ++ s.version ++ s.records.flatMap (keepRecord m) ++
        [255] ++ s.crc, tail) ∧
    (∀ r ∈ s.records, r.isEntry = false → keepRecord m r = r.encode) := by
  refine ⟨?_, ?_, ?_⟩
  · have h := FilterRDB_encode (fun _ => true) lzf s tail hwf
    have hkeep : keepRecord (fun _ => true) = SnapRecord.encode := funext keepRecord_true
    rw [Snapshot.filtered, hkeep] at h
    simpa [Snapshot.encode, Snapshot.payload, List.append_assoc] using h
  · have h := FilterRDB_encode m lzf s tail hwf
    simpa [Snapshot.filtered, List.append_assoc] using h
  · intro r hmem hr
    cases r with
    | aux k v => rfl
    | resizeDb a b => rfl
    | selectDb n => rfl
    | entry e => simp [SnapRecord.isEntry] at hr

/-- C2 witness at the demo snapshot under the `keep:` predicate. -/
theorem c2_predicate_honesty_witness :
    FilterRDB demoPred demoLzf (demoSnap.payload.length : Int) (demoSnap.encode ++ []) =
      some (strBytes "REDIS" ++ demoSnap.version ++
        demoSnap.records.flatMap (keepRecord demoPred) ++ [255] ++ demoSnap.crc, []) :=
  (c2_predicate_honesty demoPred demoLzf demoSnap [] (by decide)).1

/-- C6 witness: the all-admitting predicate reproduces the demo
snapshot byte for byte. -/
theorem c6_round_trip_witness :
    FilterRDB (fun _ => true) demoLzf (demoSnap.payload.length : Int)
      (demoSnap.encode ++ []) = some (demoSnap.encode, []) :=
  (c6_round_trip demoPred demoLzf demoSnap [] (by decide)).1
